import Mathlib

/-!
Shallow embedding of the pg-archiver pipeline (main.go, multi-table variant)
and proofs of its specified properties.

The pipeline: extract rows older than a cutoff from each configured table,
encode them to a parquet file, upload the file to S3, then delete the old
rows from every table.  External collaborators (SQL engine, parquet writer,
object store, clock) are modelled explicitly; the control flow and data
flow of `run` are translated statement by statement from the source.
-/

set_option autoImplicit false

namespace PgArchiver

/-! ## Time model

Go `time.Time` values are modelled as absolute instants: nanoseconds since
the Unix epoch, in UTC.  `civilOf` is the proleptic-Gregorian calendar
conversion (the function computed by Go's `Time.Year`, `Time.Month`,
`Time.Day` and clock accessors in UTC), via the standard days-from-epoch
algorithm.  Division here is `Int`'s `/`, which is Euclidean division and
agrees with floor division for the positive divisors used. -/

def nsPerSecond : Int := 1000000000

def nsPerDay : Int := 86400000000000

structure CivilTime where
  year : Int
  month : Int
  day : Int
  hour : Int
  minute : Int
  second : Int
  deriving Repr, DecidableEq

/-- Days since the epoch, shifted so that day 0 is 0000-03-01 (the era
origin of the civil-from-days algorithm). -/
def shiftedDays (t : Int) : Int := t / nsPerDay + 719468

/-- 400-year era of the instant. -/
def eraOf (t : Int) : Int := shiftedDays t / 146097

/-- Day of era, in `[0, 146096]`. -/
def doeOf (t : Int) : Int := shiftedDays t - eraOf t * 146097

/-- Year of era, in `[0, 399]`. -/
def yoeOf (t : Int) : Int :=
  (doeOf t - doeOf t / 1460 + doeOf t / 36524 - doeOf t / 146096) / 365

/-- Day of year (March-first year), in `[0, 365]`. -/
def doyOf (t : Int) : Int :=
  doeOf t - (365 * yoeOf t + yoeOf t / 4 - yoeOf t / 100)

/-- March-based month index, in `[0, 11]`. -/
def mpOf (t : Int) : Int := (5 * doyOf t + 2) / 153

/-- Second of the UTC day, in `[0, 86399]`. -/
def sodOf (t : Int) : Int := t % nsPerDay / nsPerSecond

/-- Calendar fields (UTC) of an absolute instant, as Go's `Year`, `Month`,
`Day` and `Format` report them. -/
def civilOf (t : Int) : CivilTime :=
  let m := if mpOf t < 10 then mpOf t + 3 else mpOf t - 9
  { year := yoeOf t + eraOf t * 400 + (if m ≤ 2 then 1 else 0)
    month := m
    day := doyOf t - (153 * mpOf t + 2) / 5 + 1
    hour := sodOf t / 3600
    minute := sodOf t % 3600 / 60
    second := sodOf t % 60 }


/-! ## Decimal formatting

Embedding of the `fmt` verbs and `time.Format` layouts the program uses:
`%d`, zero-padded `%02d`, and the layout `"20060102_150405"` (4-digit
zero-padded year, then 2-digit zero-padded month, day, hour, minute,
second). -/

def digitChar (n : Nat) : Char := Char.ofNat (48 + n)

/-- Fuel-bounded digit recursion; with fuel at least `n` it produces the
decimal digits of `n`, most significant first. -/
def decDigitsAux : Nat → Nat → List Char
  | 0, n => [digitChar n]
  | fuel + 1, n =>
    if n < 10 then [digitChar n]
    else decDigitsAux fuel (n / 10) ++ [digitChar (n % 10)]

/-- Decimal digit string of a natural number, most significant first. -/
def decDigits (n : Nat) : List Char := decDigitsAux n n

def decStr (n : Nat) : String := ⟨decDigits n⟩

/-- Go's `%d` on an integer. -/
def intStr (n : Int) : String :=
  if n < 0 then "-" ++ decStr n.natAbs else decStr n.toNat

/-- Zero padding to width `w`, as Go's `%0wd` and the numeric `time.Format`
layout fields print a non-negative value. -/
def zeroPad (w : Nat) (n : Int) : String :=
  if n < 0 then "-" ++ decStr n.natAbs
  else (⟨List.replicate (w - (decDigits n.toNat).length) '0'⟩ : String) ++ decStr n.toNat

/-- Go's `lastTimestamp.Format("20060102_150405")`. -/
def fmtStamp (c : CivilTime) : String :=
  zeroPad 4 c.year ++ zeroPad 2 c.month ++ zeroPad 2 c.day ++ "_"
    ++ zeroPad 2 c.hour ++ zeroPad 2 c.minute ++ zeroPad 2 c.second

/-! ## Data model -/

/-- A source-table row, as selected by the extraction query.  The
`value` column is a `float64`; the pipeline never computes with it, so it
is modelled as its IEEE-754 bit pattern. -/
structure Row where
  id : Int
  timestamp : Int
  deviceId : String
  value : Nat
  deriving Repr, DecidableEq

/-- The `IoTRecord` of the source: one extracted data point, tagged with its source table. -/
structure IoTRecord where
  id : Int
  timestamp : Int
  deviceId : String
  value : Nat
  tableName : String
  deriving Repr, DecidableEq

/-- The `ParquetFile` schema of the source: the fixed parquet schema.  The timestamp column is an
`INT64`, so it carries the instant's `UnixNano` value. -/
structure ParquetFile where
  id : Int
  timestamp : Int
  deviceId : String
  value : Nat
  tableName : String
  deriving Repr, DecidableEq

/-- Wrap an unbounded integer into `int64` two's-complement range, the
overflow behaviour of Go's signed 64-bit arithmetic. -/
def wrapInt64 (n : Int) : Int :=
  (n + 9223372036854775808) % 18446744073709551616 - 9223372036854775808

/-- Go's `Time.UnixNano`: the instant as an `int64` nanosecond count. -/
def unixNano (t : Int) : Int := wrapInt64 t

/-- The `IoTRecord.ToParquet` conversion from the source. -/
def IoTRecord.toParquet (r : IoTRecord) : ParquetFile :=
  { id := r.id
    timestamp := unixNano r.timestamp
    deviceId := r.deviceId
    value := r.value
    tableName := r.tableName }

/-- Modelled from the spec: decoding one row of the produced columnar file
(column values read back as written; the instant is recovered from the
stored nanosecond integer).  No decoder exists in the repository — the
columnar writer/reader is an external library the spec treats as
faithfully storing the typed records. -/
def ParquetFile.toRecord (p : ParquetFile) : IoTRecord :=
  { id := p.id
    timestamp := p.timestamp
    deviceId := p.deviceId
    value := p.value
    tableName := p.tableName }

/-! ## SQL model

The SQL engine is an external collaborator ("a conforming row source
supporting parameterized range queries and affected-row-count-returning
deletes", spec §1).  A database is a map from table name to its rows; the
extraction query's semantics are: filter strictly below the cutoff, sort
by timestamp descending, apply the LIMIT. -/

abbrev DB := String → List Row

/-- Text of the extraction query built by `processTable` (source
interpolates the table name directly). -/
def queryText (tableName : String) : String :=
  "SELECT id, timestamp, device_id, value FROM " ++ tableName
    ++ " WHERE timestamp < $1 ORDER BY timestamp DESC LIMIT $2"

/-- Text of the delete statement built by `deleteArchivedRecords`. -/
def deleteText (tableName : String) : String :=
  "DELETE FROM " ++ tableName ++ " WHERE timestamp < $1"

/-- Descending-timestamp comparison used to model `ORDER BY timestamp
DESC`. -/
def tsGE (a b : Row) : Prop := b.timestamp ≤ a.timestamp

instance : DecidableRel tsGE := fun a b =>
  inferInstanceAs (Decidable (b.timestamp ≤ a.timestamp))

instance : IsTotal Row tsGE :=
  ⟨fun a b => (le_total b.timestamp a.timestamp).elim Or.inl Or.inr⟩

instance : IsTrans Row tsGE :=
  ⟨fun _ _ _ hab hbc => le_trans hbc hab⟩

/-- Modelled from the spec: result set of the extraction query — rows with
timestamp strictly below the cutoff, newest first, at most `limit` rows. -/
def selectQuery (rows : List Row) (cutoff : Int) (limit : Nat) : List Row :=
  ((rows.filter (fun r => r.timestamp < cutoff)).insertionSort tsGE).take limit

/-- A parameterized query sent through `db.Query`. -/
structure SqlQuery where
  text : String
  cutoffParam : Int
  limitParam : Nat
  deriving Repr, DecidableEq

/-- A parameterized statement sent through `db.Exec`. -/
structure SqlDelete where
  text : String
  cutoffParam : Int
  deriving Repr, DecidableEq

/-! ## Effects and failure injection -/

/-- Observable side effects of one run: every query and delete statement
sent to the database, and the attempted S3 PUT (bucket, key). -/
structure Trace where
  queries : List SqlQuery
  deletes : List SqlDelete
  uploadAttempted : Option (String × String)
  deriving Repr, DecidableEq

def Trace.start : Trace := { queries := [], deletes := [], uploadAttempted := none }

/-- Behaviour of the external world for one run: which fallible calls
fail.  `scanFailAt t = some i` makes the scan of the `i`-th returned row
of table `t` fail (a type-mismatch error); `writeFailAt = some i` makes
the parquet writer fail after `i` records (write/finalize error). -/
structure Env where
  connectOk : Bool
  pingOk : Bool
  queryFails : String → Bool
  scanFailAt : String → Option Nat
  createOk : Bool
  writeFailAt : Option Nat
  awsCfgOk : Bool
  openOk : Bool
  uploadOk : Bool
  deleteFails : String → Bool
  affectedFails : String → Bool

/-- Environment-sourced configuration (`getEnv` with defaults already
resolved). -/
structure Config where
  pgConnStr : String
  s3Bucket : String
  tableNames : String

/-- Batch size, fixed in the source. -/
def batchSize : Nat := 100

/-- Retention period in days, fixed in the source. -/
def retentionDays : Int := 90

/-- The cutoff: `time.Now().AddDate(0, 0, -retentionDays)` in the UTC model. -/
def cutoffOf (now : Int) : Int := now - retentionDays * nsPerDay

/-- Go `strings.Split(s, ",")`: cut the character sequence at every comma;
an empty string yields one empty field, as in Go. -/
def splitCommaAux : List Char → List Char → List String
  | [], acc => [⟨acc.reverse⟩]
  | ch :: rest, acc =>
    if ch = ',' then (⟨acc.reverse⟩ : String) :: splitCommaAux rest []
    else splitCommaAux rest (ch :: acc)

/-- Go `strings.TrimSpace`: drop leading and trailing whitespace. -/
def trimSpaceList (l : List Char) : List Char :=
  ((l.dropWhile Char.isWhitespace).reverse.dropWhile Char.isWhitespace).reverse

/-- Go `strings.Split(tableNames, ",")` followed by `strings.TrimSpace` on
each entry. -/
def splitTables (tableNames : String) : List String :=
  (splitCommaAux tableNames.data []).map (fun part => (⟨trimSpaceList part.data⟩ : String))

/-- The local filesystem as far as this program sees it: the one archive
file, with the parquet rows it holds. -/
abbrev ArchiveFS := Option (String × List ParquetFile)

/-! ## The pipeline (translation of main.go) -/

/-- The `rows.Next()/rows.Scan` loop body of `processTable`: reads each
returned row into an `IoTRecord`, sets `record.TableName = tableName`, and
appends; a scan error (injected at index `failAt`) aborts with the wrapped
error. -/
def scanRows (tableName : String) (failAt : Option Nat) :
    List Row → Nat → Except String (List IoTRecord)
  | [], _ => .ok []
  | r :: rest, i =>
    if failAt = some i then
      .error ("scanning row from " ++ tableName)
    else
      match scanRows tableName failAt rest (i + 1) with
      | .error e => .error e
      | .ok recs =>
          .ok ({ id := r.id, timestamp := r.timestamp, deviceId := r.deviceId,
                 value := r.value, tableName := tableName } :: recs)

/-- The `processTable` function from the source: build the query (interpolating the
table name), send it with the cutoff and batch size as parameters, and
scan the returned rows. -/
def processTable (env : Env) (db : DB) (tableName : String) (cutoff : Int)
    (bs : Nat) (tr : Trace) : Trace × Except String (List IoTRecord) :=
  let q : SqlQuery := { text := queryText tableName, cutoffParam := cutoff, limitParam := bs }
  let tr1 := { tr with queries := tr.queries ++ [q] }
  if env.queryFails tableName then
    (tr1, .error ("querying old records from " ++ tableName))
  else
    (tr1, scanRows tableName (env.scanFailAt tableName) (selectQuery (db tableName) cutoff bs) 0)

/-- The per-table extraction loop of `run`: process each table in order,
abort on the first error, and append each table's records to
`allRecords`. -/
def extractTables (env : Env) (db : DB) (cutoff : Int) :
    List String → Trace → Trace × Except String (List IoTRecord)
  | [], tr => (tr, .ok [])
  | t :: ts, tr =>
    match processTable env db t cutoff batchSize tr with
    | (tr1, .error e) => (tr1, .error ("processing table " ++ t ++ ": " ++ e))
    | (tr1, .ok recs) =>
      match extractTables env db cutoff ts tr1 with
      | (tr2, .error e) => (tr2, .error e)
      | (tr2, .ok rest) => (tr2, .ok (recs ++ rest))

/-- The `writeParquetFile` function from the source: create the local file writer,
encode each record via `ToParquet`, and finalize.  On a creation failure
no file is produced; on a write/finalize failure the file holds the
records written so far (partially-written file, never uploaded). -/
def writeParquetFile (env : Env) (records : List IoTRecord) (filename : String)
    (fs : ArchiveFS) : ArchiveFS × Except String Unit :=
  if env.createOk = false then
    (fs, .error "creating file writer")
  else
    match env.writeFailAt with
    | some i => (some (filename, (records.take i).map IoTRecord.toParquet),
                 .error "writing parquet file")
    | none => (some (filename, records.map IoTRecord.toParquet), .ok ())

/-- The `deleteArchivedRecords` function from the source: one unbounded DELETE of every
row strictly below the cutoff, returning the affected-row count. -/
def deleteArchivedRecords (env : Env) (db : DB) (tableName : String)
    (cutoff : Int) : DB × Except String Int :=
  if env.deleteFails tableName then
    (db, .error ("deleting archived records from " ++ tableName))
  else
    let remaining := (db tableName).filter (fun r => cutoff ≤ r.timestamp)
    let db1 : DB := fun name => if name = tableName then remaining else db name
    if env.affectedFails tableName then
      (db1, .error ("getting affected rows count from " ++ tableName))
    else
      (db1, .ok ((db tableName).length - remaining.length : Int))

/-- The per-table deletion loop of `run`: delete from each table in order,
abort on the first error. -/
def purgeTables (env : Env) (cutoff : Int) :
    List String → DB → Trace → Trace × DB × Except String Unit
  | [], db, tr => (tr, db, .ok ())
  | t :: ts, db, tr =>
    let tr1 := { tr with deletes := tr.deletes ++ [{ text := deleteText t, cutoffParam := cutoff }] }
    match deleteArchivedRecords env db t cutoff with
    | (db1, .error e) => (tr1, db1, .error ("deleting archived records: " ++ e))
    | (db1, .ok _) => purgeTables env cutoff ts db1 tr1

/-- The `lastTimestamp` fold of `run`: start from the first record's
timestamp and replace it whenever a later record's timestamp is strictly
after it. -/
def maxTimestamp (first : Int) (rest : List IoTRecord) : Int :=
  rest.foldl (fun acc r => if acc < r.timestamp then r.timestamp else acc) first

/-- The S3 object key built by `run`:
`year=%d/month=%02d/multi_table_<Format "20060102_150405">.parquet`, all
components taken from `lastTimestamp`. -/
def s3KeyOf (t : Int) : String :=
  "year=" ++ intStr (civilOf t).year ++ "/month=" ++ zeroPad 2 (civilOf t).month
    ++ "/multi_table_" ++ fmtStamp (civilOf t) ++ ".parquet"

/-- Result of one invocation: the returned error (if any), the observable
trace, and the final database and filesystem states. -/
structure RunOutput where
  result : Except String Unit
  trace : Trace
  db : DB
  fs : ArchiveFS

/-- The `run` function from the source, statement by statement: split and trim the
configured table names, connect and ping, compute the cutoff once,
extract all tables, stop successfully on an empty batch, compute the
latest timestamp, write the parquet file, configure AWS, open and upload
the file, then delete the archived rows from every table. -/
def run (env : Env) (db : DB) (cfg : Config) (now : Int) (fs : ArchiveFS) : RunOutput :=
  let tables := splitTables cfg.tableNames
  if env.connectOk = false then
    { result := .error "connecting to postgres", trace := Trace.start, db := db, fs := fs }
  else if env.pingOk = false then
    { result := .error "testing database connection", trace := Trace.start, db := db, fs := fs }
  else
    let cutoff := cutoffOf now
    match extractTables env db cutoff tables Trace.start with
    | (tr, .error e) => { result := .error e, trace := tr, db := db, fs := fs }
    | (tr, .ok allRecords) =>
      match allRecords with
      | [] => { result := .ok (), trace := tr, db := db, fs := fs }
      | first :: rest =>
        let lastTimestamp := maxTimestamp first.timestamp rest
        match writeParquetFile env (first :: rest) "/tmp/archive.parquet" fs with
        | (fs1, .error e) => { result := .error ("writing parquet file: " ++ e),
                               trace := tr, db := db, fs := fs1 }
        | (fs1, .ok _) =>
          if env.awsCfgOk = false then
            { result := .error "loading AWS config", trace := tr, db := db, fs := fs1 }
          else
            let s3Key := s3KeyOf lastTimestamp
            if env.openOk = false then
              { result := .error "opening parquet file", trace := tr, db := db, fs := fs1 }
            else
              let tr1 := { tr with uploadAttempted := some (cfg.s3Bucket, s3Key) }
              if env.uploadOk = false then
                { result := .error "uploading to S3", trace := tr1, db := db, fs := fs1 }
              else
                match purgeTables env cutoff tables db tr1 with
                | (tr2, db2, .error e) => { result := .error e, trace := tr2, db := db2, fs := fs1 }
                | (tr2, db2, .ok _) => { result := .ok (), trace := tr2, db := db2, fs := fs1 }

/-- Process exit status of `main`: 0 on a nil error from `run`, 1
otherwise. -/
def exitCode (out : RunOutput) : Nat :=
  match out.result with
  | .ok _ => 0
  | .error _ => 1


/-! ## Derived notions used in the statements -/

/-- The record `processTable` builds from a scanned row of `tableName`. -/
def tagRow (tableName : String) (r : Row) : IoTRecord :=
  { id := r.id, timestamp := r.timestamp, deviceId := r.deviceId,
    value := r.value, tableName := tableName }

/-- The extraction of table `t` fails: either its query errors, or the
injected scan failure index falls within the returned rows. -/
def tableFails (env : Env) (db : DB) (cutoff : Int) (t : String) : Prop :=
  env.queryFails t = true ∨
    ∃ i, env.scanFailAt t = some i ∧ i < (selectQuery (db t) cutoff batchSize).length

/-- The batch a failure-free extraction produces: per-table query results,
tagged with their table, concatenated in configuration order. -/
def extractedSpec (db : DB) (cutoff : Int) : List String → List IoTRecord
  | [] => []
  | t :: ts => (selectQuery (db t) cutoff batchSize).map (tagRow t) ++ extractedSpec db cutoff ts

/-- The query `processTable` sends for table `t`. -/
def queryFor (t : String) (cutoff : Int) : SqlQuery :=
  { text := queryText t, cutoffParam := cutoff, limitParam := batchSize }

/-- The delete statement `deleteArchivedRecords` sends for table `t`. -/
def deleteFor (t : String) (cutoff : Int) : SqlDelete :=
  { text := deleteText t, cutoffParam := cutoff }

/-! ## Concrete fixtures used by the closed instances -/

def envAllOk : Env :=
  { connectOk := true, pingOk := true, queryFails := fun _ => false,
    scanFailAt := fun _ => none, createOk := true, writeFailAt := none,
    awsCfgOk := true, openOk := true, uploadOk := true,
    deleteFails := fun _ => false, affectedFails := fun _ => false }

def envNoUpload : Env := { envAllOk with uploadOk := false }

def envQueryFailsB : Env := { envAllOk with queryFails := fun t => t = "b" }

def rowOld1 : Row :=
  { id := 1, timestamp := -7776000000000001, deviceId := "dev1", value := 5 }

def dbOneOld : DB := fun name => if name = "a" then [rowOld1] else []

def dbEmpty : DB := fun _ => []

def cfgA : Config := { pgConnStr := "pg", s3Bucket := "bucket", tableNames := "a" }

def cfgAB : Config := { pgConnStr := "pg", s3Bucket := "bucket", tableNames := "a,b" }

def cfgComma : Config := { pgConnStr := "pg", s3Bucket := "bucket", tableNames := "," }

def rows101 : List Row :=
  (List.range 101).map fun i =>
    { id := (i : Int), timestamp := -7776000000000001 - (i : Int) * 1000000000,
      deviceId := "dev", value := 7 }

def dbMany : DB := fun name => if name = "a" then rows101 else []

def rowYear500 : Row :=
  { id := 9, timestamp := -46383580800000000000, deviceId := "dev9", value := 3 }

def dbYear500 : DB := fun name => if name = "a" then [rowYear500] else []

/-! ## Calendar bounds -/

/-- Core arithmetic fact behind the civil conversion: within one 400-year
era the year-of-era and day-of-year computed by the algorithm are in
range.  Stated over plain variables with explicit quotient/remainder
characterizations so that linear arithmetic can settle it. -/
theorem civil_era_aux (doe q1 r1 q2 r2 q3 r3 yoe r4 q5 r5 q6 r6 : Int)
    (hd : 0 ≤ doe) (hd2 : doe ≤ 146096)
    (h1 : doe = 1460 * q1 + r1) (h1r : 0 ≤ r1) (h1r2 : r1 < 1460)
    (h2 : doe = 36524 * q2 + r2) (h2r : 0 ≤ r2) (h2r2 : r2 < 36524)
    (h3 : doe = 146096 * q3 + r3) (h3r : 0 ≤ r3) (h3r2 : r3 < 146096)
    (h4 : doe - q1 + q2 - q3 = 365 * yoe + r4) (h4r : 0 ≤ r4) (h4r2 : r4 < 365)
    (h5 : yoe = 4 * q5 + r5) (h5r : 0 ≤ r5) (h5r2 : r5 < 4)
    (h6 : yoe = 100 * q6 + r6) (h6r : 0 ≤ r6) (h6r2 : r6 < 100) :
    0 ≤ doe - (365 * yoe + q5 - q6) ∧ doe - (365 * yoe + q5 - q6) ≤ 365 ∧
    0 ≤ yoe ∧ yoe ≤ 399 := by
  have hq2 : 0 ≤ q2 ∧ q2 ≤ 4 := by omega
  have hq3 : 0 ≤ q3 ∧ q3 ≤ 1 := by omega
  have hyoe : 0 ≤ yoe ∧ yoe ≤ 399 := by omega
  have hq6 : 0 ≤ q6 ∧ q6 ≤ 3 := by omega
  obtain ⟨hq2a, hq2b⟩ := hq2
  obtain ⟨hq3a, hq3b⟩ := hq3
  obtain ⟨hq6a, hq6b⟩ := hq6
  interval_cases q2 <;> interval_cases q3 <;> interval_cases q6 <;> omega

theorem doeOf_bounds (t : Int) : 0 ≤ doeOf t ∧ doeOf t ≤ 146096 := by
  simp only [doeOf, eraOf, shiftedDays]
  omega

theorem doy_yoe_bounds (t : Int) :
    0 ≤ doyOf t ∧ doyOf t ≤ 365 ∧ 0 ≤ yoeOf t ∧ yoeOf t ≤ 399 := by
  obtain ⟨hd, hd2⟩ := doeOf_bounds t
  have h := civil_era_aux (doeOf t) (doeOf t / 1460) (doeOf t % 1460)
    (doeOf t / 36524) (doeOf t % 36524) (doeOf t / 146096) (doeOf t % 146096)
    (yoeOf t)
    ((doeOf t - doeOf t / 1460 + doeOf t / 36524 - doeOf t / 146096) % 365)
    (yoeOf t / 4) (yoeOf t % 4) (yoeOf t / 100) (yoeOf t % 100)
    hd hd2 (by omega) (by omega) (by omega) (by omega) (by omega) (by omega)
    (by omega) (by omega) (by omega)
    (by simp only [yoeOf]; omega)
    (by omega) (by omega)
    (by omega) (by omega) (by omega) (by omega) (by omega) (by omega)
  simp only [doyOf]
  omega

theorem mpOf_bounds (t : Int) : 0 ≤ mpOf t ∧ mpOf t ≤ 11 := by
  obtain ⟨h1, h2, -, -⟩ := doy_yoe_bounds t
  simp only [mpOf]
  omega

theorem civilOf_month_bounds (t : Int) :
    1 ≤ (civilOf t).month ∧ (civilOf t).month ≤ 12 := by
  obtain ⟨h1, h2⟩ := mpOf_bounds t
  simp only [civilOf]
  split <;> omega

theorem civilOf_day_bounds (t : Int) :
    1 ≤ (civilOf t).day ∧ (civilOf t).day ≤ 31 := by
  obtain ⟨h1, h2, -, -⟩ := doy_yoe_bounds t
  obtain ⟨h3, h4⟩ := mpOf_bounds t
  have h5 : 153 * mpOf t ≤ 5 * doyOf t + 2 ∧ 5 * doyOf t + 2 < 153 * (mpOf t + 1) := by
    simp only [mpOf]
    omega
  simp only [civilOf]
  omega

theorem sodOf_bounds (t : Int) : 0 ≤ sodOf t ∧ sodOf t ≤ 86399 := by
  simp only [sodOf, nsPerDay, nsPerSecond]
  omega

theorem civilOf_clock_bounds (t : Int) :
    0 ≤ (civilOf t).hour ∧ (civilOf t).hour ≤ 23 ∧
    0 ≤ (civilOf t).minute ∧ (civilOf t).minute ≤ 59 ∧
    0 ≤ (civilOf t).second ∧ (civilOf t).second ≤ 59 := by
  obtain ⟨h1, h2⟩ := sodOf_bounds t
  simp only [civilOf]
  omega

/-! ## Extraction lemmas -/

theorem processTable_fst (env : Env) (db : DB) (t : String) (c : Int)
    (bs : Nat) (tr : Trace) :
    (processTable env db t c bs tr).1 =
      { tr with queries := tr.queries ++ [{ text := queryText t, cutoffParam := c, limitParam := bs }] } := by
  simp only [processTable]
  split <;> rfl

theorem scanRows_ok (t : String) (failAt : Option Nat) :
    ∀ (rows : List Row) (i : Nat),
      (∀ j, failAt = some j → ¬(i ≤ j ∧ j < i + rows.length)) →
      scanRows t failAt rows i = .ok (rows.map (tagRow t))
  | [], _, _ => rfl
  | r :: rest, i, h => by
    have hne : ¬ failAt = some i := fun he =>
      h i he ⟨Nat.le_refl i, by simp only [List.length_cons]; omega⟩
    rw [scanRows, if_neg hne,
      scanRows_ok t failAt rest (i + 1)
        (fun j hj hc => h j hj ⟨by omega, by simp only [List.length_cons]; omega⟩)]
    rfl

theorem scanRows_error (t : String) (failAt : Option Nat) :
    ∀ (rows : List Row) (i j : Nat), failAt = some j → i ≤ j → j < i + rows.length →
      scanRows t failAt rows i = .error ("scanning row from " ++ t)
  | [], i, j, _, h1, h2 => by
    simp only [List.length_nil] at h2
    omega
  | r :: rest, i, j, hf, h1, h2 => by
    by_cases hij : j = i
    · subst hij
      rw [scanRows, if_pos hf]
    · have hne : ¬ failAt = some i := by
        rw [hf]
        simp only [Option.some.injEq]
        omega
      rw [scanRows, if_neg hne,
        scanRows_error t failAt rest (i + 1) j hf (by omega)
          (by simp only [List.length_cons] at h2; omega)]

theorem processTable_ok (env : Env) (db : DB) (t : String) (c : Int) (tr : Trace)
    (h : ¬ tableFails env db c t) :
    processTable env db t c batchSize tr =
      ({ tr with queries := tr.queries ++ [queryFor t c] },
        .ok ((selectQuery (db t) c batchSize).map (tagRow t))) := by
  have hq : ¬ env.queryFails t = true := fun hqf => h (Or.inl hqf)
  rw [processTable, if_neg hq,
    scanRows_ok t (env.scanFailAt t) (selectQuery (db t) c batchSize) 0
      (fun j hj hc => h (Or.inr ⟨j, hj, by omega⟩))]
  rfl

theorem processTable_err (env : Env) (db : DB) (t : String) (c : Int) (tr : Trace)
    (h : tableFails env db c t) :
    ∃ e, processTable env db t c batchSize tr =
      ({ tr with queries := tr.queries ++ [queryFor t c] }, .error e) := by
  by_cases hqf : env.queryFails t = true
  · exact ⟨_, by rw [processTable, if_pos hqf]; rfl⟩
  · rcases h with hq | ⟨i, hi, hlen⟩
    · exact absurd hq hqf
    · exact ⟨"scanning row from " ++ t, by
        rw [processTable, if_neg hqf,
          scanRows_error t (env.scanFailAt t) (selectQuery (db t) c batchSize) 0 i hi
            (Nat.zero_le i) (by omega)]
        rfl⟩

theorem extractTables_cons_err (env : Env) (db : DB) (c : Int) (t : String)
    (ts : List String) (tr tr1 : Trace) (e : String)
    (hP : processTable env db t c batchSize tr = (tr1, .error e)) :
    extractTables env db c (t :: ts) tr =
      (tr1, .error ("processing table " ++ t ++ ": " ++ e)) := by
  rw [extractTables, hP]

theorem extractTables_cons_ok (env : Env) (db : DB) (c : Int) (t : String)
    (ts : List String) (tr tr1 : Trace) (recs : List IoTRecord)
    (hP : processTable env db t c batchSize tr = (tr1, .ok recs)) :
    extractTables env db c (t :: ts) tr =
      match extractTables env db c ts tr1 with
      | (tr2, .error e) => (tr2, .error e)
      | (tr2, .ok rest) => (tr2, .ok (recs ++ rest)) := by
  rw [extractTables, hP]

theorem extractTables_ok (env : Env) (db : DB) (c : Int) :
    ∀ (ts : List String) (tr : Trace),
      (∀ t ∈ ts, ¬ tableFails env db c t) →
      extractTables env db c ts tr =
        ({ tr with queries := tr.queries ++ ts.map (fun t => queryFor t c) },
          .ok (extractedSpec db c ts))
  | [], tr, _ => by simp [extractTables, extractedSpec]
  | t :: ts, tr, h => by
    rw [extractTables_cons_ok env db c t ts tr _ _
        (processTable_ok env db t c tr (h t (List.mem_cons_self t ts))),
      extractTables_ok env db c ts _ (fun s hs => h s (List.mem_cons_of_mem t hs))]
    simp [extractedSpec, List.append_assoc]

theorem extractTables_err (env : Env) (db : DB) (c : Int) :
    ∀ (ts : List String) (tr : Trace),
      (∃ t ∈ ts, tableFails env db c t) →
      ∃ tr' e, extractTables env db c ts tr = (tr', .error e) ∧
        tr'.deletes = tr.deletes ∧ tr'.uploadAttempted = tr.uploadAttempted
  | [], _, h => absurd h (by simp)
  | t :: ts, tr, h => by
    by_cases hft : tableFails env db c t
    · obtain ⟨e, he⟩ := processTable_err env db t c tr hft
      exact ⟨{ tr with queries := tr.queries ++ [queryFor t c] },
        "processing table " ++ t ++ ": " ++ e,
        extractTables_cons_err env db c t ts tr _ e he, rfl, rfl⟩
    · obtain ⟨s, hs, hfs⟩ := h
      rcases List.mem_cons.mp hs with rfl | hs'
      · exact absurd hfs hft
      · obtain ⟨tr', e, hE, hd, hu⟩ :=
          extractTables_err env db c ts
            { tr with queries := tr.queries ++ [queryFor t c] } ⟨s, hs', hfs⟩
        refine ⟨tr', e, ?_, hd, hu⟩
        rw [extractTables_cons_ok env db c t ts tr _ _ (processTable_ok env db t c tr hft), hE]

theorem extractTables_deletes (env : Env) (db : DB) (c : Int) :
    ∀ (ts : List String) (tr : Trace),
      (extractTables env db c ts tr).1.deletes = tr.deletes
  | [], _ => rfl
  | t :: ts, tr => by
    rcases hP : processTable env db t c batchSize tr with ⟨tr1, res⟩
    have h1 : tr1 = { tr with queries := tr.queries ++ [{ text := queryText t, cutoffParam := c, limitParam := batchSize }] } := by
      have h := processTable_fst env db t c batchSize tr
      rw [hP] at h
      exact h
    cases res with
    | error e =>
      rw [extractTables_cons_err env db c t ts tr tr1 e hP, h1]
    | ok recs =>
      rw [extractTables_cons_ok env db c t ts tr tr1 recs hP]
      rcases hR : extractTables env db c ts tr1 with ⟨tr2, res2⟩
      have h2 : tr2.deletes = tr1.deletes := by
        have h := extractTables_deletes env db c ts tr1
        rw [hR] at h
        exact h
      cases res2 <;> simp [h2, h1]

theorem extractTables_upload (env : Env) (db : DB) (c : Int) :
    ∀ (ts : List String) (tr : Trace),
      (extractTables env db c ts tr).1.uploadAttempted = tr.uploadAttempted
  | [], _ => rfl
  | t :: ts, tr => by
    rcases hP : processTable env db t c batchSize tr with ⟨tr1, res⟩
    have h1 : tr1 = { tr with queries := tr.queries ++ [{ text := queryText t, cutoffParam := c, limitParam := batchSize }] } := by
      have h := processTable_fst env db t c batchSize tr
      rw [hP] at h
      exact h
    cases res with
    | error e =>
      rw [extractTables_cons_err env db c t ts tr tr1 e hP, h1]
    | ok recs =>
      rw [extractTables_cons_ok env db c t ts tr tr1 recs hP]
      rcases hR : extractTables env db c ts tr1 with ⟨tr2, res2⟩
      have h2 : tr2.uploadAttempted = tr1.uploadAttempted := by
        have h := extractTables_upload env db c ts tr1
        rw [hR] at h
        exact h
      cases res2 <;> simp [h2, h1]

theorem extractTables_queries_extend (env : Env) (db : DB) (c : Int) :
    ∀ (ts : List String) (tr : Trace),
      ∃ s, (extractTables env db c ts tr).1.queries = tr.queries ++ s
  | [], tr => ⟨[], by simp [extractTables]⟩
  | t :: ts, tr => by
    rcases hP : processTable env db t c batchSize tr with ⟨tr1, res⟩
    have h1 : tr1 = { tr with queries := tr.queries ++ [{ text := queryText t, cutoffParam := c, limitParam := batchSize }] } := by
      have h := processTable_fst env db t c batchSize tr
      rw [hP] at h
      exact h
    cases res with
    | error e =>
      refine ⟨[{ text := queryText t, cutoffParam := c, limitParam := batchSize }], ?_⟩
      rw [extractTables_cons_err env db c t ts tr tr1 e hP, h1]
    | ok recs =>
      rw [extractTables_cons_ok env db c t ts tr tr1 recs hP]
      rcases hR : extractTables env db c ts tr1 with ⟨tr2, res2⟩
      obtain ⟨s, hs⟩ := extractTables_queries_extend env db c ts tr1
      rw [hR] at hs
      refine ⟨[{ text := queryText t, cutoffParam := c, limitParam := batchSize }] ++ s, ?_⟩
      have h1q : tr1.queries = tr.queries ++ [{ text := queryText t, cutoffParam := c, limitParam := batchSize }] := by
        rw [h1]
      have hq2 : tr2.queries = tr.queries ++ ([{ text := queryText t, cutoffParam := c, limitParam := batchSize }] ++ s) := by
        rw [← List.append_assoc, ← h1q]
        exact hs
      cases res2 <;> exact hq2

theorem extractTables_queries_cutoff (env : Env) (db : DB) (c : Int) :
    ∀ (ts : List String) (tr : Trace) (q : SqlQuery),
      q ∈ (extractTables env db c ts tr).1.queries →
      q ∈ tr.queries ∨ q.cutoffParam = c
  | [], _, q, hq => Or.inl hq
  | t :: ts, tr, q, hq => by
    rcases hP : processTable env db t c batchSize tr with ⟨tr1, res⟩
    have h1 : tr1 = { tr with queries := tr.queries ++ [{ text := queryText t, cutoffParam := c, limitParam := batchSize }] } := by
      have h := processTable_fst env db t c batchSize tr
      rw [hP] at h
      exact h
    have step : q ∈ tr1.queries → q ∈ tr.queries ∨ q.cutoffParam = c := by
      intro hmem
      rw [h1] at hmem
      rcases List.mem_append.mp hmem with h | h
      · exact Or.inl h
      · simp only [List.mem_singleton] at h
        subst h
        exact Or.inr rfl
    cases res with
    | error e =>
      rw [extractTables_cons_err env db c t ts tr tr1 e hP] at hq
      exact step hq
    | ok recs =>
      rw [extractTables_cons_ok env db c t ts tr tr1 recs hP] at hq
      rcases hR : extractTables env db c ts tr1 with ⟨tr2, res2⟩
      rw [hR] at hq
      have hrec := extractTables_queries_cutoff env db c ts tr1 q
      rw [hR] at hrec
      have hq2 : q ∈ tr2.queries := by cases res2 <;> exact hq
      rcases hrec hq2 with h | h
      · exact step h
      · exact Or.inr h

/-! ## Purge lemmas -/

theorem filter_keep_idem (l : List Row) (c : Int) :
    (l.filter (fun r => c ≤ r.timestamp)).filter (fun r => c ≤ r.timestamp)
      = l.filter (fun r => c ≤ r.timestamp) :=
  List.filter_eq_self.mpr fun _ ha => (List.mem_filter.mp ha).2

theorem deleteArchivedRecords_pointwise (env : Env) (db : DB) (t : String)
    (c : Int) (nm : String) :
    (deleteArchivedRecords env db t c).1 nm = db nm ∨
      (deleteArchivedRecords env db t c).1 nm = (db nm).filter (fun r => c ≤ r.timestamp) := by
  simp only [deleteArchivedRecords]
  split
  · exact Or.inl rfl
  · split
    all_goals
      by_cases hnm : nm = t
      · subst hnm
        right
        simp
      · left
        simp [hnm]

theorem deleteArchivedRecords_ok (env : Env) (db : DB) (t : String) (c : Int)
    (db1 : DB) (n : Int) (h : deleteArchivedRecords env db t c = (db1, .ok n)) :
    db1 t = (db t).filter (fun r => c ≤ r.timestamp) ∧
      ∀ nm, nm ≠ t → db1 nm = db nm := by
  simp only [deleteArchivedRecords] at h
  split at h
  · simp at h
  · split at h
    · simp at h
    · simp only [Prod.mk.injEq] at h
      obtain ⟨hdb, -⟩ := h
      constructor
      · rw [← hdb]
        simp
      · intro nm hnm
        rw [← hdb]
        simp [hnm]

theorem purgeTables_cons_err (env : Env) (c : Int) (t : String) (ts : List String)
    (db db1 : DB) (tr : Trace) (e : String)
    (hD : deleteArchivedRecords env db t c = (db1, .error e)) :
    purgeTables env c (t :: ts) db tr =
      ({ tr with deletes := tr.deletes ++ [deleteFor t c] }, db1,
        .error ("deleting archived records: " ++ e)) := by
  simp only [purgeTables]
  rw [hD]
  rfl

theorem purgeTables_cons_ok (env : Env) (c : Int) (t : String) (ts : List String)
    (db db1 : DB) (tr : Trace) (n : Int)
    (hD : deleteArchivedRecords env db t c = (db1, .ok n)) :
    purgeTables env c (t :: ts) db tr =
      purgeTables env c ts db1 { tr with deletes := tr.deletes ++ [deleteFor t c] } := by
  simp only [purgeTables]
  rw [hD]
  rfl

theorem purgeTables_queries (env : Env) (c : Int) :
    ∀ (ts : List String) (db : DB) (tr : Trace),
      (purgeTables env c ts db tr).1.queries = tr.queries
  | [], _, _ => rfl
  | t :: ts, db, tr => by
    rcases hD : deleteArchivedRecords env db t c with ⟨db1, dres⟩
    cases dres with
    | error e => rw [purgeTables_cons_err env c t ts db db1 tr e hD]
    | ok n =>
      rw [purgeTables_cons_ok env c t ts db db1 tr n hD]
      exact purgeTables_queries env c ts db1 _

theorem purgeTables_upload (env : Env) (c : Int) :
    ∀ (ts : List String) (db : DB) (tr : Trace),
      (purgeTables env c ts db tr).1.uploadAttempted = tr.uploadAttempted
  | [], _, _ => rfl
  | t :: ts, db, tr => by
    rcases hD : deleteArchivedRecords env db t c with ⟨db1, dres⟩
    cases dres with
    | error e => rw [purgeTables_cons_err env c t ts db db1 tr e hD]
    | ok n =>
      rw [purgeTables_cons_ok env c t ts db db1 tr n hD]
      exact purgeTables_upload env c ts db1 _

theorem purgeTables_deletes_cutoff (env : Env) (c : Int) :
    ∀ (ts : List String) (db : DB) (tr : Trace) (d : SqlDelete),
      d ∈ (purgeTables env c ts db tr).1.deletes →
      d ∈ tr.deletes ∨ d.cutoffParam = c
  | [], _, _, _, hd => Or.inl hd
  | t :: ts, db, tr, d, hd => by
    have step : d ∈ tr.deletes ++ [deleteFor t c] → d ∈ tr.deletes ∨ d.cutoffParam = c := by
      intro hmem
      rcases List.mem_append.mp hmem with h | h
      · exact Or.inl h
      · simp only [List.mem_singleton] at h
        subst h
        exact Or.inr rfl
    rcases hD : deleteArchivedRecords env db t c with ⟨db1, dres⟩
    cases dres with
    | error e =>
      rw [purgeTables_cons_err env c t ts db db1 tr e hD] at hd
      exact step hd
    | ok n =>
      rw [purgeTables_cons_ok env c t ts db db1 tr n hD] at hd
      rcases purgeTables_deletes_cutoff env c ts db1 _ d hd with h | h
      · exact step h
      · exact Or.inr h

theorem purgeTables_db_pointwise (env : Env) (c : Int) :
    ∀ (ts : List String) (db : DB) (tr : Trace) (name : String),
      (purgeTables env c ts db tr).2.1 name = db name ∨
      (purgeTables env c ts db tr).2.1 name = (db name).filter (fun r => c ≤ r.timestamp)
  | [], _, _, _ => Or.inl rfl
  | t :: ts, db, tr, name => by
    rcases hD : deleteArchivedRecords env db t c with ⟨db1, dres⟩
    have hd1 : db1 name = db name ∨ db1 name = (db name).filter (fun r => c ≤ r.timestamp) := by
      have h := deleteArchivedRecords_pointwise env db t c name
      rw [hD] at h
      exact h
    cases dres with
    | error e =>
      rw [purgeTables_cons_err env c t ts db db1 tr e hD]
      exact hd1
    | ok n =>
      rw [purgeTables_cons_ok env c t ts db db1 tr n hD]
      rcases purgeTables_db_pointwise env c ts db1 _ name with h | h
      · rw [h]
        exact hd1
      · rcases hd1 with h1 | h1
        · rw [h, h1]
          exact Or.inr rfl
        · rw [h, h1, filter_keep_idem]
          exact Or.inr rfl

theorem purgeTables_ok_db (env : Env) (c : Int) :
    ∀ (ts : List String) (db : DB) (tr tr2 : Trace) (db2 : DB) (u : Unit),
      purgeTables env c ts db tr = (tr2, db2, .ok u) →
      ∀ name, (name ∈ ts → db2 name = (db name).filter (fun r => c ≤ r.timestamp)) ∧
        (name ∉ ts → db2 name = db name)
  | [], db, tr, tr2, db2, u, h, name => by
    simp only [purgeTables, Prod.mk.injEq] at h
    obtain ⟨-, h2, -⟩ := h
    subst h2
    exact ⟨fun hmem => absurd hmem (List.not_mem_nil name), fun _ => rfl⟩
  | t :: ts, db, tr, tr2, db2, u, h, name => by
    rcases hD : deleteArchivedRecords env db t c with ⟨db1, dres⟩
    cases dres with
    | error e =>
      rw [purgeTables_cons_err env c t ts db db1 tr e hD] at h
      simp at h
    | ok n =>
      rw [purgeTables_cons_ok env c t ts db db1 tr n hD] at h
      have IH := purgeTables_ok_db env c ts db1 _ tr2 db2 u h name
      obtain ⟨hd1t, hd1o⟩ := deleteArchivedRecords_ok env db t c db1 n hD
      constructor
      · intro hmem
        rcases List.mem_cons.mp hmem with rfl | hmem2
        · by_cases hts : name ∈ ts
          · rw [IH.1 hts, hd1t, filter_keep_idem]
          · rw [IH.2 hts, hd1t]
        · rw [IH.1 hmem2]
          by_cases hnt : name = t
          · subst hnt
            rw [hd1t, filter_keep_idem]
          · rw [hd1o name hnt]
      · intro hnmem
        have hnt : name ≠ t := fun he => hnmem (he ▸ List.mem_cons_self t ts)
        have hnts : name ∉ ts := fun he => hnmem (List.mem_cons_of_mem t he)
        rw [IH.2 hnts, hd1o name hnt]

/-! ## Query-result and fold lemmas -/

theorem selectQuery_mem (rows : List Row) (c : Int) (lim : Nat) (r : Row)
    (hr : r ∈ selectQuery rows c lim) : r.timestamp < c ∧ r ∈ rows := by
  have h1 : r ∈ (rows.filter (fun x => x.timestamp < c)).insertionSort tsGE :=
    List.take_subset lim _ hr
  have h2 : r ∈ rows.filter (fun x => x.timestamp < c) :=
    (List.perm_insertionSort tsGE _).subset h1
  have h3 := List.mem_filter.mp h2
  refine ⟨by simpa using h3.2, h3.1⟩

theorem selectQuery_length_le (rows : List Row) (c : Int) (lim : Nat) :
    (selectQuery rows c lim).length ≤ lim := by
  simp only [selectQuery]
  exact List.length_take_le lim _

theorem selectQuery_sorted (rows : List Row) (c : Int) (lim : Nat) :
    List.Sorted tsGE (selectQuery rows c lim) :=
  List.Pairwise.sublist (List.take_sublist lim _) (List.sorted_insertionSort tsGE _)

theorem selectQuery_eq_nil_iff (rows : List Row) (c : Int) :
    selectQuery rows c batchSize = [] ↔ rows.filter (fun r => r.timestamp < c) = [] := by
  simp only [selectQuery]
  constructor
  · intro h
    have hlen := congrArg List.length h
    simp only [List.length_take, List.length_nil] at hlen
    have hsort : ((rows.filter (fun r => r.timestamp < c)).insertionSort tsGE).length
        = (rows.filter (fun r => r.timestamp < c)).length :=
      (List.perm_insertionSort tsGE _).length_eq
    rw [hsort] at hlen
    have : (rows.filter (fun r => r.timestamp < c)).length = 0 := by
      simp only [batchSize] at hlen
      omega
    exact List.length_eq_zero.mp this
  · intro h
    rw [h]
    rfl

theorem maxTimestamp_cons (first : Int) (r : IoTRecord) (rs : List IoTRecord) :
    maxTimestamp first (r :: rs) =
      maxTimestamp (if first < r.timestamp then r.timestamp else first) rs := rfl

theorem maxTimestamp_ge (rest : List IoTRecord) :
    ∀ first, first ≤ maxTimestamp first rest ∧
      ∀ r ∈ rest, r.timestamp ≤ maxTimestamp first rest := by
  induction rest with
  | nil =>
    intro first
    exact ⟨le_refl first, by simp⟩
  | cons r rs IH =>
    intro first
    rw [maxTimestamp_cons]
    obtain ⟨ih1, ih2⟩ := IH (if first < r.timestamp then r.timestamp else first)
    have h0 : first ≤ (if first < r.timestamp then r.timestamp else first) := by
      by_cases hc : first < r.timestamp
      · rw [if_pos hc]
        omega
      · rw [if_neg hc]
    have hr : r.timestamp ≤ (if first < r.timestamp then r.timestamp else first) := by
      by_cases hc : first < r.timestamp
      · rw [if_pos hc]
      · rw [if_neg hc]
        omega
    refine ⟨le_trans h0 ih1, ?_⟩
    intro r2 hr2
    rcases List.mem_cons.mp hr2 with rfl | hr2m
    · exact le_trans hr ih1
    · exact ih2 r2 hr2m

theorem maxTimestamp_mem (rest : List IoTRecord) :
    ∀ first, maxTimestamp first rest = first ∨
      ∃ r ∈ rest, maxTimestamp first rest = r.timestamp := by
  induction rest with
  | nil =>
    intro first
    exact Or.inl rfl
  | cons r rs IH =>
    intro first
    rw [maxTimestamp_cons]
    rcases IH (if first < r.timestamp then r.timestamp else first) with h | ⟨r2, hm, he⟩
    · by_cases hc : first < r.timestamp
      · right
        refine ⟨r, List.mem_cons_self r rs, ?_⟩
        rw [h, if_pos hc]
      · left
        rw [h, if_neg hc]
    · exact Or.inr ⟨r2, List.mem_cons_of_mem r hm, he⟩

theorem filter_length_partition (c : Int) :
    ∀ l : List Row,
      (l.filter (fun r => c ≤ r.timestamp)).length
        + (l.filter (fun r => r.timestamp < c)).length = l.length
  | [] => rfl
  | r :: l => by
    have IH := filter_length_partition c l
    by_cases h : c ≤ r.timestamp
    · have h2 : ¬ (r.timestamp < c) := by omega
      rw [List.filter_cons_of_pos (by simpa using h),
        List.filter_cons_of_neg (by simpa using h2), List.length_cons, List.length_cons]
      omega
    · have h2 : r.timestamp < c := by omega
      rw [List.filter_cons_of_neg (by simpa using h),
        List.filter_cons_of_pos (by simpa using h2), List.length_cons, List.length_cons]
      omega

/-! ## Formatting lemmas -/

theorem strMk_length (l : List Char) : (String.mk l).length = l.length := rfl

theorem decDigitsAux_len1 (fuel n : Nat) (h : n < 10) :
    (decDigitsAux fuel n).length = 1 := by
  cases fuel with
  | zero => rfl
  | succ f =>
    rw [decDigitsAux, if_pos h]
    rfl

theorem decDigitsAux_step (fuel n : Nat) (h : ¬ n < 10) :
    (decDigitsAux (fuel + 1) n).length = (decDigitsAux fuel (n / 10)).length + 1 := by
  rw [decDigitsAux, if_neg h]
  simp

theorem decDigitsAux_len2 (fuel n : Nat) (h1 : 10 ≤ n) (h2 : n < 100) (hf : n ≤ fuel) :
    (decDigitsAux fuel n).length = 2 := by
  cases fuel with
  | zero => omega
  | succ f =>
    rw [decDigitsAux_step f n (by omega), decDigitsAux_len1 f (n / 10) (by omega)]

theorem decDigitsAux_len3 (fuel n : Nat) (h1 : 100 ≤ n) (h2 : n < 1000) (hf : n ≤ fuel) :
    (decDigitsAux fuel n).length = 3 := by
  cases fuel with
  | zero => omega
  | succ f =>
    rw [decDigitsAux_step f n (by omega),
      decDigitsAux_len2 f (n / 10) (by omega) (by omega) (by omega)]

theorem decDigitsAux_len4 (fuel n : Nat) (h1 : 1000 ≤ n) (h2 : n < 10000) (hf : n ≤ fuel) :
    (decDigitsAux fuel n).length = 4 := by
  cases fuel with
  | zero => omega
  | succ f =>
    rw [decDigitsAux_step f n (by omega),
      decDigitsAux_len3 f (n / 10) (by omega) (by omega) (by omega)]

theorem decDigits_len1 (n : Nat) (h : n < 10) : (decDigits n).length = 1 :=
  decDigitsAux_len1 n n h

theorem decDigits_len2 (n : Nat) (h1 : 10 ≤ n) (h2 : n < 100) :
    (decDigits n).length = 2 :=
  decDigitsAux_len2 n n h1 h2 (Nat.le_refl n)

theorem decDigits_len4 (n : Nat) (h1 : 1000 ≤ n) (h2 : n < 10000) :
    (decDigits n).length = 4 :=
  decDigitsAux_len4 n n h1 h2 (Nat.le_refl n)

theorem intStr_length_year (y : Int) (h1 : 1000 ≤ y) (h2 : y ≤ 9999) :
    (intStr y).length = 4 := by
  rw [intStr, if_neg (by omega)]
  show (decDigits y.toNat).length = 4
  exact decDigits_len4 y.toNat (by omega) (by omega)

theorem zeroPad_two_length (m : Int) (h1 : 0 ≤ m) (h2 : m ≤ 99) :
    (zeroPad 2 m).length = 2 := by
  rw [zeroPad, if_neg (by omega)]
  rw [String.length_append, strMk_length, List.length_replicate]
  by_cases hm : m.toNat < 10
  · rw [show (decStr m.toNat).length = (decDigits m.toNat).length from rfl,
      decDigits_len1 m.toNat hm]
  · rw [show (decStr m.toNat).length = (decDigits m.toNat).length from rfl,
      decDigits_len2 m.toNat (by omega) (by omega)]

theorem zeroPad_four_length (y : Int) (h1 : 1000 ≤ y) (h2 : y ≤ 9999) :
    (zeroPad 4 y).length = 4 := by
  rw [zeroPad, if_neg (by omega)]
  rw [String.length_append, strMk_length, List.length_replicate]
  rw [show (decStr y.toNat).length = (decDigits y.toNat).length from rfl,
    decDigits_len4 y.toNat (by omega) (by omega)]

theorem fmtStamp_length (t : Int) (hy1 : 1000 ≤ (civilOf t).year)
    (hy2 : (civilOf t).year ≤ 9999) : (fmtStamp (civilOf t)).length = 15 := by
  obtain ⟨hm1, hm2⟩ := civilOf_month_bounds t
  obtain ⟨hd1, hd2⟩ := civilOf_day_bounds t
  obtain ⟨hh1, hh2, hmi1, hmi2, hs1, hs2⟩ := civilOf_clock_bounds t
  rw [fmtStamp, String.length_append, String.length_append, String.length_append,
    String.length_append, String.length_append, String.length_append,
    zeroPad_four_length _ hy1 hy2,
    zeroPad_two_length _ (by omega) (by omega),
    zeroPad_two_length _ (by omega) (by omega),
    zeroPad_two_length _ (by omega) (by omega),
    zeroPad_two_length _ (by omega) (by omega),
    zeroPad_two_length _ (by omega) (by omega)]
  rfl

/-! ## Run unfolding lemmas -/

theorem run_noconnect (env : Env) (db : DB) (cfg : Config) (now : Int) (fs : ArchiveFS)
    (h : env.connectOk = false) :
    run env db cfg now fs =
      { result := .error "connecting to postgres", trace := Trace.start, db := db, fs := fs } := by
  simp only [run, h]
  rfl

theorem run_noping (env : Env) (db : DB) (cfg : Config) (now : Int) (fs : ArchiveFS)
    (h1 : env.connectOk = true) (h2 : env.pingOk = false) :
    run env db cfg now fs =
      { result := .error "testing database connection", trace := Trace.start, db := db, fs := fs } := by
  simp only [run, h1, h2]
  rfl

theorem run_extract_err (env : Env) (db : DB) (cfg : Config) (now : Int) (fs : ArchiveFS)
    (tr : Trace) (e : String)
    (h1 : env.connectOk = true) (h2 : env.pingOk = true)
    (hE : extractTables env db (cutoffOf now) (splitTables cfg.tableNames) Trace.start
      = (tr, .error e)) :
    run env db cfg now fs = { result := .error e, trace := tr, db := db, fs := fs } := by
  simp only [run, h1, h2]
  rw [if_neg (by simp), if_neg (by simp), hE]

theorem run_empty (env : Env) (db : DB) (cfg : Config) (now : Int) (fs : ArchiveFS)
    (tr : Trace)
    (h1 : env.connectOk = true) (h2 : env.pingOk = true)
    (hE : extractTables env db (cutoffOf now) (splitTables cfg.tableNames) Trace.start
      = (tr, .ok [])) :
    run env db cfg now fs = { result := .ok (), trace := tr, db := db, fs := fs } := by
  simp only [run, h1, h2]
  rw [if_neg (by simp), if_neg (by simp), hE]

theorem run_nonempty (env : Env) (db : DB) (cfg : Config) (now : Int) (fs : ArchiveFS)
    (tr : Trace) (first : IoTRecord) (rest : List IoTRecord)
    (h1 : env.connectOk = true) (h2 : env.pingOk = true)
    (hE : extractTables env db (cutoffOf now) (splitTables cfg.tableNames) Trace.start
      = (tr, .ok (first :: rest))) :
    run env db cfg now fs =
      match writeParquetFile env (first :: rest) "/tmp/archive.parquet" fs with
      | (fs1, .error e) =>
        { result := .error ("writing parquet file: " ++ e), trace := tr, db := db, fs := fs1 }
      | (fs1, .ok _) =>
        if env.awsCfgOk = false then
          { result := .error "loading AWS config", trace := tr, db := db, fs := fs1 }
        else if env.openOk = false then
          { result := .error "opening parquet file", trace := tr, db := db, fs := fs1 }
        else if env.uploadOk = false then
          { result := .error "uploading to S3",
            trace := { tr with uploadAttempted := some (cfg.s3Bucket, s3KeyOf (maxTimestamp first.timestamp rest)) },
            db := db, fs := fs1 }
        else
          match purgeTables env (cutoffOf now) (splitTables cfg.tableNames) db
              { tr with uploadAttempted := some (cfg.s3Bucket, s3KeyOf (maxTimestamp first.timestamp rest)) } with
          | (tr2, db2, .error e) => { result := .error e, trace := tr2, db := db2, fs := fs1 }
          | (tr2, db2, .ok _) => { result := .ok (), trace := tr2, db := db2, fs := fs1 } := by
  simp only [run, h1, h2]
  rw [if_neg (by simp), if_neg (by simp), hE]

/-! ## Claim theorems -/

/-- C1.  For every run in which the upload to object storage returns an
error, the run aborts before the Purger stage: no delete statement is
issued against any source, the database is untouched, and the process
exits non-zero. -/
theorem upload_error_aborts_before_purge (env : Env) (db : DB) (cfg : Config)
    (now : Int) (fs : ArchiveFS)
    (hup : env.uploadOk = false)
    (hatt : (run env db cfg now fs).trace.uploadAttempted.isSome = true) :
    (run env db cfg now fs).trace.deletes = [] ∧
      (run env db cfg now fs).db = db ∧
      exitCode (run env db cfg now fs) = 1 := by
  cases h1 : env.connectOk with
  | false =>
    rw [run_noconnect env db cfg now fs h1] at hatt ⊢
    simp [Trace.start] at hatt
  | true =>
  cases h2 : env.pingOk with
  | false =>
    rw [run_noping env db cfg now fs h1 h2] at hatt ⊢
    simp [Trace.start] at hatt
  | true =>
  rcases hE : extractTables env db (cutoffOf now) (splitTables cfg.tableNames) Trace.start
    with ⟨tr, res⟩
  have htr : tr.uploadAttempted = none := by
    have h := extractTables_upload env db (cutoffOf now) (splitTables cfg.tableNames) Trace.start
    rw [hE] at h
    exact h
  have htrd : tr.deletes = [] := by
    have h := extractTables_deletes env db (cutoffOf now) (splitTables cfg.tableNames) Trace.start
    rw [hE] at h
    exact h
  cases res with
  | error e =>
    rw [run_extract_err env db cfg now fs tr e h1 h2 hE] at hatt ⊢
    simp [htr] at hatt
  | ok recs =>
    cases recs with
    | nil =>
      rw [run_empty env db cfg now fs tr h1 h2 hE] at hatt ⊢
      simp [htr] at hatt
    | cons first rest =>
      rw [run_nonempty env db cfg now fs tr first rest h1 h2 hE] at hatt ⊢
      rcases hW : writeParquetFile env (first :: rest) "/tmp/archive.parquet" fs
        with ⟨fs1, wres⟩
      rw [hW] at hatt
      cases wres with
      | error e => simp [htr] at hatt
      | ok u =>
        cases h3 : env.awsCfgOk with
        | false => simp [h3, htr] at hatt
        | true =>
        cases h4 : env.openOk with
        | false => simp [h3, h4, htr] at hatt
        | true =>
          simp [h3, h4, hup, htrd, exitCode]

/-- Closed instance of C1: with the upload failing, a one-table one-row
run issues no delete, leaves the database untouched, and exits 1. -/
theorem upload_error_aborts_before_purge_witness :
    (run envNoUpload dbOneOld cfgA 0 none).trace.deletes = [] ∧
      (run envNoUpload dbOneOld cfgA 0 none).db = dbOneOld ∧
      exitCode (run envNoUpload dbOneOld cfgA 0 none) = 1 :=
  upload_error_aborts_before_purge envNoUpload dbOneOld cfgA 0 none rfl rfl

/-- C5.  For every run in which the extracted batch is empty across all
sources, the run ends successfully: exit status 0, the filesystem is
untouched (no output file created), no upload attempted, no delete
statement executed, and the database untouched. -/
theorem empty_batch_success (env : Env) (db : DB) (cfg : Config) (now : Int)
    (fs : ArchiveFS) (tr : Trace)
    (h1 : env.connectOk = true) (h2 : env.pingOk = true)
    (hE : extractTables env db (cutoffOf now) (splitTables cfg.tableNames) Trace.start
      = (tr, .ok [])) :
    (run env db cfg now fs).result = .ok () ∧
      exitCode (run env db cfg now fs) = 0 ∧
      (run env db cfg now fs).fs = fs ∧
      (run env db cfg now fs).trace.uploadAttempted = none ∧
      (run env db cfg now fs).trace.deletes = [] ∧
      (run env db cfg now fs).db = db := by
  have htr : tr.uploadAttempted = none := by
    have h := extractTables_upload env db (cutoffOf now) (splitTables cfg.tableNames) Trace.start
    rw [hE] at h
    exact h
  have htrd : tr.deletes = [] := by
    have h := extractTables_deletes env db (cutoffOf now) (splitTables cfg.tableNames) Trace.start
    rw [hE] at h
    exact h
  rw [run_empty env db cfg now fs tr h1 h2 hE]
  exact ⟨rfl, rfl, rfl, htr, htrd, rfl⟩

/-- Closed instance of C5 on an empty database. -/
theorem empty_batch_success_witness :
    (run envAllOk dbEmpty cfgA 0 none).result = .ok () ∧
      exitCode (run envAllOk dbEmpty cfgA 0 none) = 0 ∧
      (run envAllOk dbEmpty cfgA 0 none).fs = none ∧
      (run envAllOk dbEmpty cfgA 0 none).trace.uploadAttempted = none ∧
      (run envAllOk dbEmpty cfgA 0 none).trace.deletes = [] ∧
      (run envAllOk dbEmpty cfgA 0 none).db = dbEmpty :=
  empty_batch_success envAllOk dbEmpty cfgA 0 none
    { queries := [{ text := queryText "a", cutoffParam := cutoffOf 0, limitParam := 100 }],
      deletes := [], uploadAttempted := none }
    rfl rfl rfl

/-- C6.  For every run in which a query or row-scan error occurs on any
configured source (a later source included), the entire run aborts: exit
status 1, the filesystem is untouched (no output file written, rows
already read are discarded), no upload occurs, and no delete statement
executes anywhere. -/
theorem extract_error_aborts (env : Env) (db : DB) (cfg : Config) (now : Int)
    (fs : ArchiveFS)
    (h1 : env.connectOk = true) (h2 : env.pingOk = true)
    (hfail : ∃ t ∈ splitTables cfg.tableNames, tableFails env db (cutoffOf now) t) :
    exitCode (run env db cfg now fs) = 1 ∧
      (run env db cfg now fs).fs = fs ∧
      (run env db cfg now fs).trace.uploadAttempted = none ∧
      (run env db cfg now fs).trace.deletes = [] ∧
      (run env db cfg now fs).db = db := by
  obtain ⟨tr2, e, hE, hd, hu⟩ :=
    extractTables_err env db (cutoffOf now) (splitTables cfg.tableNames) Trace.start hfail
  rw [run_extract_err env db cfg now fs tr2 e h1 h2 hE]
  exact ⟨rfl, rfl, hu, hd, rfl⟩

/-- Closed instance of C6: the query on the second of two sources fails
after the first source (which holds one qualifying row) was read; the
run aborts with nothing written, uploaded, or deleted. -/
theorem extract_error_aborts_witness :
    exitCode (run envQueryFailsB dbOneOld cfgAB 0 none) = 1 ∧
      (run envQueryFailsB dbOneOld cfgAB 0 none).fs = none ∧
      (run envQueryFailsB dbOneOld cfgAB 0 none).trace.uploadAttempted = none ∧
      (run envQueryFailsB dbOneOld cfgAB 0 none).trace.deletes = [] ∧
      (run envQueryFailsB dbOneOld cfgAB 0 none).db = dbOneOld :=
  extract_error_aborts envQueryFailsB dbOneOld cfgAB 0 none rfl rfl
    ⟨"b", by decide, Or.inl (by decide)⟩

theorem not_mem_keep_filter (l : List Row) (c : Int) (r : Row) (hin : r ∈ l)
    (hout : r ∉ l.filter (fun x => c ≤ x.timestamp)) : r.timestamp < c := by
  by_contra hlt
  push_neg at hlt
  exact hout (List.mem_filter.mpr ⟨hin, by simpa using hlt⟩)

theorem extractedSpec_eq_nil (db : DB) (c : Int) :
    ∀ ts, extractedSpec db c ts = [] → ∀ t ∈ ts, selectQuery (db t) c batchSize = []
  | [], _, t, hmem => absurd hmem (List.not_mem_nil t)
  | s :: ts, h, t, hmem => by
    simp only [extractedSpec, List.append_eq_nil, List.map_eq_nil_iff] at h
    obtain ⟨h1, h2⟩ := h
    rcases List.mem_cons.mp hmem with rfl | hm
    · exact h1
    · exact extractedSpec_eq_nil db c ts h2 t hm

theorem extract_ok_spec (env : Env) (db : DB) (c : Int) (ts : List String)
    (tr tr2 : Trace) (batch : List IoTRecord)
    (hE : extractTables env db c ts tr = (tr2, .ok batch)) :
    batch = extractedSpec db c ts ∧ ∀ t ∈ ts, ¬ tableFails env db c t := by
  have hnf : ∀ t ∈ ts, ¬ tableFails env db c t := by
    intro t hmem hf
    obtain ⟨tr3, e, hE2, -, -⟩ := extractTables_err env db c ts tr ⟨t, hmem, hf⟩
    rw [hE2] at hE
    simp at hE
  have h := extractTables_ok env db c ts tr hnf
  rw [hE] at h
  simp only [Prod.mk.injEq, Except.ok.injEq] at h
  exact ⟨h.2, hnf⟩

/-- C2.  For every run: a row removed from a source was strictly older
than the single cutoff (now − retention) computed at run start; deletes
are issued only after the upload has succeeded; in a run that returns
success every source retains exactly its rows at-or-after the cutoff (so
a row is deleted if and only if it was strictly older than the cutoff);
and every extraction query and every delete statement carries exactly
that same cutoff value as its parameter — never a freshly computed now. -/
theorem delete_iff_older_than_cutoff (env : Env) (db : DB) (cfg : Config)
    (now : Int) (fs : ArchiveFS) :
    (∀ name r, r ∈ db name → r ∉ (run env db cfg now fs).db name →
      r.timestamp < cutoffOf now) ∧
    ((run env db cfg now fs).trace.deletes ≠ [] →
      env.uploadOk = true ∧ (run env db cfg now fs).trace.uploadAttempted.isSome = true) ∧
    ((run env db cfg now fs).result = .ok () →
      ∀ t ∈ splitTables cfg.tableNames,
        (run env db cfg now fs).db t = (db t).filter (fun r => cutoffOf now ≤ r.timestamp)) ∧
    (∀ q ∈ (run env db cfg now fs).trace.queries, q.cutoffParam = cutoffOf now) ∧
    (∀ d ∈ (run env db cfg now fs).trace.deletes, d.cutoffParam = cutoffOf now) := by
  cases h1 : env.connectOk with
  | false =>
    rw [run_noconnect env db cfg now fs h1]
    refine ⟨fun name r hin hout => absurd hin hout, fun h => absurd rfl h,
      fun h => by simp at h, fun q hq => absurd hq (List.not_mem_nil q),
      fun d hd => absurd hd (List.not_mem_nil d)⟩
  | true =>
  cases h2 : env.pingOk with
  | false =>
    rw [run_noping env db cfg now fs h1 h2]
    refine ⟨fun name r hin hout => absurd hin hout, fun h => absurd rfl h,
      fun h => by simp at h, fun q hq => absurd hq (List.not_mem_nil q),
      fun d hd => absurd hd (List.not_mem_nil d)⟩
  | true =>
  rcases hE : extractTables env db (cutoffOf now) (splitTables cfg.tableNames) Trace.start
    with ⟨tr, res⟩
  have hqc : ∀ q ∈ tr.queries, q.cutoffParam = cutoffOf now := by
    intro q hq
    have h := extractTables_queries_cutoff env db (cutoffOf now)
      (splitTables cfg.tableNames) Trace.start q
    rw [hE] at h
    rcases h hq with hfalse | hc
    · exact absurd hfalse (List.not_mem_nil q)
    · exact hc
  have htrd : tr.deletes = [] := by
    have h := extractTables_deletes env db (cutoffOf now) (splitTables cfg.tableNames) Trace.start
    rw [hE] at h
    exact h
  cases res with
  | error e =>
    rw [run_extract_err env db cfg now fs tr e h1 h2 hE]
    refine ⟨fun name r hin hout => absurd hin hout, fun h => absurd htrd h,
      fun h => by simp at h, hqc,
      fun d hd => absurd hd (htrd ▸ List.not_mem_nil d)⟩
  | ok recs =>
    cases recs with
    | nil =>
      rw [run_empty env db cfg now fs tr h1 h2 hE]
      refine ⟨fun name r hin hout => absurd hin hout, fun h => absurd htrd h,
        ?_, hqc, fun d hd => absurd hd (htrd ▸ List.not_mem_nil d)⟩
      intro _ t hmem
      obtain ⟨hspec, -⟩ := extract_ok_spec env db (cutoffOf now)
        (splitTables cfg.tableNames) Trace.start tr [] hE
      have hsel := extractedSpec_eq_nil db (cutoffOf now) (splitTables cfg.tableNames)
        hspec.symm t hmem
      have hfil := (selectQuery_eq_nil_iff (db t) (cutoffOf now)).mp hsel
      have hall := List.filter_eq_nil_iff.mp hfil
      symm
      refine List.filter_eq_self.mpr ?_
      intro r hr
      have := hall r hr
      simp only [decide_eq_true_eq] at this ⊢
      omega
    | cons first rest =>
      rw [run_nonempty env db cfg now fs tr first rest h1 h2 hE]
      rcases hW : writeParquetFile env (first :: rest) "/tmp/archive.parquet" fs
        with ⟨fs1, wres⟩
      cases wres with
      | error e =>
        refine ⟨fun name r hin hout => absurd hin hout, fun h => absurd htrd h,
          fun h => by simp at h, hqc,
          fun d hd => absurd hd (htrd ▸ List.not_mem_nil d)⟩
      | ok u =>
        cases h3 : env.awsCfgOk with
        | false =>
          simp only [Bool.false_eq_true, reduceIte]
          refine ⟨fun name r hin hout => absurd hin hout, fun h => absurd htrd h,
            fun h => by simp at h, hqc,
            fun d hd => absurd hd (htrd ▸ List.not_mem_nil d)⟩
        | true =>
        cases h4 : env.openOk with
        | false =>
          simp only [Bool.false_eq_true, Bool.true_eq_false, reduceIte]
          refine ⟨fun name r hin hout => absurd hin hout, fun h => absurd htrd h,
            fun h => by simp at h, hqc,
            fun d hd => absurd hd (htrd ▸ List.not_mem_nil d)⟩
        | true =>
        cases h5 : env.uploadOk with
        | false =>
          simp only [Bool.false_eq_true, Bool.true_eq_false, reduceIte]
          refine ⟨fun name r hin hout => absurd hin hout, fun h => absurd htrd h,
            fun h => by simp at h, hqc,
            fun d hd => absurd hd (htrd ▸ List.not_mem_nil d)⟩
        | true =>
          simp only [Bool.true_eq_false, reduceIte]
          set trU : Trace := { tr with uploadAttempted := some (cfg.s3Bucket, s3KeyOf (maxTimestamp first.timestamp rest)) } with htrU
          rcases hP : purgeTables env (cutoffOf now) (splitTables cfg.tableNames) db trU
            with ⟨tr2, db2, pres⟩
          have hpq : tr2.queries = tr.queries := by
            have h := purgeTables_queries env (cutoffOf now) (splitTables cfg.tableNames) db trU
            rw [hP] at h
            rw [h, htrU]
          have hpu : tr2.uploadAttempted
              = some (cfg.s3Bucket, s3KeyOf (maxTimestamp first.timestamp rest)) := by
            have h := purgeTables_upload env (cutoffOf now) (splitTables cfg.tableNames) db trU
            rw [hP] at h
            rw [h, htrU]
          have hpd : ∀ d ∈ tr2.deletes, d.cutoffParam = cutoffOf now := by
            intro d hd
            have h := purgeTables_deletes_cutoff env (cutoffOf now)
              (splitTables cfg.tableNames) db trU d
            rw [hP] at h
            rcases h hd with hmem | hc
            · rw [htrU] at hmem
              exact absurd hmem (htrd ▸ List.not_mem_nil d)
            · exact hc
          have hdbp : ∀ name, db2 name = db name ∨
              db2 name = (db name).filter (fun r => cutoffOf now ≤ r.timestamp) := by
            intro name
            have h := purgeTables_db_pointwise env (cutoffOf now)
              (splitTables cfg.tableNames) db trU name
            rw [hP] at h
            exact h
          have hsound : ∀ name r, r ∈ db name → r ∉ db2 name →
              r.timestamp < cutoffOf now := by
            intro name r hin hout
            rcases hdbp name with h | h
            · rw [h] at hout
              exact absurd hin hout
            · rw [h] at hout
              exact not_mem_keep_filter (db name) (cutoffOf now) r hin hout
          cases pres with
          | error e =>
            refine ⟨hsound, fun _ => ⟨trivial, by rw [hpu]; rfl⟩, fun h => by simp at h,
              fun q hq => hqc q (hpq ▸ hq), hpd⟩
          | ok u2 =>
            refine ⟨hsound, fun _ => ⟨trivial, by rw [hpu]; rfl⟩, ?_,
              fun q hq => hqc q (hpq ▸ hq), hpd⟩
            intro _ t hmem
            exact (purgeTables_ok_db env (cutoffOf now) (splitTables cfg.tableNames) db
              trU tr2 db2 u2 hP t).1 hmem

/-- Closed instance of C2: a successful run leaves the single source
holding exactly its not-older-than-cutoff rows. -/
theorem delete_iff_older_than_cutoff_witness :
    (run envAllOk dbOneOld cfgA 0 none).db "a"
      = (dbOneOld "a").filter (fun r => cutoffOf 0 ≤ r.timestamp) :=
  (delete_iff_older_than_cutoff envAllOk dbOneOld cfgA 0 none).2.2.1 rfl "a" (by decide)

/-- C3 counterexample.  The claim asserts that in every successful
non-empty run the key has the shape `year=<4-digit>/...`; a run whose
batch maximum timestamp falls in the year 500 succeeds and uploads under
the key `year=500/...` — the `%d`-rendered year component has 3 digits,
so the claimed shape fails. -/
theorem s3_key_year_not_4digit_cex :
    (run envAllOk dbYear500 cfgA 0 none).result = .ok () ∧
    (run envAllOk dbYear500 cfgA 0 none).trace.uploadAttempted
      = some ("bucket", "year=500/month=03/multi_table_05000301_000000.parquet") ∧
    (intStr (civilOf (-46383580800000000000)).year).length ≠ 4 :=
  ⟨rfl, rfl, by decide⟩

/-- C3, amended.  For every successful run with a non-empty batch, the
object key is built once from the maximum record timestamp across the
entire batch (all sources combined): the key equals
`year=<year>/month=<month>/multi_table_<stamp>.parquet` with every
component — the year, the zero-padded 2-digit month, and the
`YYYYMMDD_HHMMSS` stamp — taken from that maximum timestamp; the year
component is `%d` of the year, which is 4 digits exactly for years 1000
to 9999 (it is shorter or longer outside that range, as the
counterexample shows), in which case the stamp is 15 characters. -/
theorem s3_key_shape_from_batch_max (env : Env) (db : DB) (cfg : Config) (now : Int)
    (fs : ArchiveFS) (tr : Trace) (first : IoTRecord) (rest : List IoTRecord)
    (h1 : env.connectOk = true) (h2 : env.pingOk = true)
    (hE : extractTables env db (cutoffOf now) (splitTables cfg.tableNames) Trace.start
      = (tr, .ok (first :: rest)))
    (hok : (run env db cfg now fs).result = .ok ()) :
    (run env db cfg now fs).trace.uploadAttempted
      = some (cfg.s3Bucket, s3KeyOf (maxTimestamp first.timestamp rest)) ∧
    (∀ r ∈ first :: rest, r.timestamp ≤ maxTimestamp first.timestamp rest) ∧
    (maxTimestamp first.timestamp rest = first.timestamp ∨
      ∃ r ∈ rest, maxTimestamp first.timestamp rest = r.timestamp) ∧
    s3KeyOf (maxTimestamp first.timestamp rest)
      = "year=" ++ intStr (civilOf (maxTimestamp first.timestamp rest)).year
        ++ "/month=" ++ zeroPad 2 (civilOf (maxTimestamp first.timestamp rest)).month
        ++ "/multi_table_" ++ fmtStamp (civilOf (maxTimestamp first.timestamp rest))
        ++ ".parquet" ∧
    (zeroPad 2 (civilOf (maxTimestamp first.timestamp rest)).month).length = 2 ∧
    (1000 ≤ (civilOf (maxTimestamp first.timestamp rest)).year →
      (civilOf (maxTimestamp first.timestamp rest)).year ≤ 9999 →
      (intStr (civilOf (maxTimestamp first.timestamp rest)).year).length = 4 ∧
      (fmtStamp (civilOf (maxTimestamp first.timestamp rest))).length = 15) := by
  obtain ⟨hm1, hm2⟩ := civilOf_month_bounds (maxTimestamp first.timestamp rest)
  have hbound : ∀ r ∈ first :: rest, r.timestamp ≤ maxTimestamp first.timestamp rest := by
    intro r hr
    obtain ⟨hfst, hrest⟩ := maxTimestamp_ge rest first.timestamp
    rcases List.mem_cons.mp hr with rfl | hm
    · exact hfst
    · exact hrest r hm
  rw [run_nonempty env db cfg now fs tr first rest h1 h2 hE] at hok ⊢
  rcases hW : writeParquetFile env (first :: rest) "/tmp/archive.parquet" fs
    with ⟨fs1, wres⟩
  rw [hW] at hok
  cases wres with
  | error e => simp at hok
  | ok u =>
    cases h3 : env.awsCfgOk with
    | false => simp [h3] at hok
    | true =>
    cases h4 : env.openOk with
    | false => simp [h3, h4] at hok
    | true =>
    cases h5 : env.uploadOk with
    | false => simp [h3, h4, h5] at hok
    | true =>
      simp only [h3, h4, h5, Bool.true_eq_false, reduceIte] at hok ⊢
      set trU : Trace := { tr with uploadAttempted := some (cfg.s3Bucket, s3KeyOf (maxTimestamp first.timestamp rest)) } with htrU
      rcases hP : purgeTables env (cutoffOf now) (splitTables cfg.tableNames) db trU
        with ⟨tr2, db2, pres⟩
      rw [hP] at hok
      have hpu : tr2.uploadAttempted = trU.uploadAttempted := by
        have h := purgeTables_upload env (cutoffOf now) (splitTables cfg.tableNames) db trU
        rw [hP] at h
        exact h
      cases pres with
      | error e => simp at hok
      | ok u2 =>
        refine ⟨?_, hbound, maxTimestamp_mem rest first.timestamp, rfl,
          zeroPad_two_length _ (by omega) (by omega),
          fun hy1 hy2 => ⟨intStr_length_year _ hy1 hy2, fmtStamp_length _ hy1 hy2⟩⟩
        show tr2.uploadAttempted = _
        rw [hpu, htrU]

/-- Closed instance of the amended C3 on a one-row batch from October
1969, discharging the 4-digit-year conditional. -/
theorem s3_key_shape_from_batch_max_witness :
    (run envAllOk dbOneOld cfgA 0 none).trace.uploadAttempted
      = some (cfgA.s3Bucket, s3KeyOf (maxTimestamp (-7776000000000001) [])) ∧
    (intStr (civilOf (maxTimestamp (-7776000000000001) [])).year).length = 4 :=
  have h := s3_key_shape_from_batch_max envAllOk dbOneOld cfgA 0 none
    { queries := [{ text := queryText "a", cutoffParam := cutoffOf 0, limitParam := 100 }],
      deletes := [], uploadAttempted := none }
    { id := 1, timestamp := -7776000000000001, deviceId := "dev1", value := 5, tableName := "a" }
    [] rfl rfl rfl rfl
  ⟨h.1, (h.2.2.2.2.2 (by decide) (by decide)).1⟩

theorem extractedSpec_mem (db : DB) (c : Int) :
    ∀ (ts : List String) (rec : IoTRecord), rec ∈ extractedSpec db c ts →
      rec.tableName ∈ ts ∧ rec.timestamp < c
  | [], rec, h => absurd h (List.not_mem_nil rec)
  | t :: ts, rec, h => by
    simp only [extractedSpec] at h
    rcases List.mem_append.mp h with h | h
    · obtain ⟨r, hr, rfl⟩ := List.mem_map.mp h
      exact ⟨List.mem_cons_self t ts, (selectQuery_mem (db t) c batchSize r hr).1⟩
    · have hrec := extractedSpec_mem db c ts rec h
      exact ⟨List.mem_cons_of_mem t hrec.1, hrec.2⟩

/-- C4.  For every extraction that completes: one bounded query is issued
per configured source, in order, each carrying the cutoff and the batch
size; each source's result set holds only rows strictly older than the
cutoff, at most `batchSize` of them, ordered by timestamp descending;
every record is tagged with a configured source name; and the batch
passed on is exactly the concatenation of the per-source results. -/
theorem extractor_contract (env : Env) (db : DB) (cfg : Config) (now : Int)
    (tr : Trace) (batch : List IoTRecord)
    (hE : extractTables env db (cutoffOf now) (splitTables cfg.tableNames) Trace.start
      = (tr, .ok batch)) :
    tr.queries = (splitTables cfg.tableNames).map (fun t => queryFor t (cutoffOf now)) ∧
    batch = extractedSpec db (cutoffOf now) (splitTables cfg.tableNames) ∧
    (∀ t, (∀ r ∈ selectQuery (db t) (cutoffOf now) batchSize,
        r.timestamp < cutoffOf now ∧ r ∈ db t) ∧
      (selectQuery (db t) (cutoffOf now) batchSize).length ≤ batchSize ∧
      List.Sorted tsGE (selectQuery (db t) (cutoffOf now) batchSize)) ∧
    (∀ rec ∈ batch, rec.tableName ∈ splitTables cfg.tableNames ∧
      rec.timestamp < cutoffOf now) := by
  obtain ⟨hspec, hnf⟩ := extract_ok_spec env db (cutoffOf now)
    (splitTables cfg.tableNames) Trace.start tr batch hE
  have h := extractTables_ok env db (cutoffOf now) (splitTables cfg.tableNames) Trace.start hnf
  rw [hE] at h
  simp only [Prod.mk.injEq, Except.ok.injEq] at h
  refine ⟨?_, hspec, ?_, ?_⟩
  · rw [h.1]
    simp [Trace.start]
  · intro t
    exact ⟨fun r hr => selectQuery_mem (db t) (cutoffOf now) batchSize r hr,
      selectQuery_length_le (db t) (cutoffOf now) batchSize,
      selectQuery_sorted (db t) (cutoffOf now) batchSize⟩
  · intro rec hrec
    exact extractedSpec_mem db (cutoffOf now) (splitTables cfg.tableNames) rec (hspec ▸ hrec)

/-- Closed instance of C4: the one-table run issues exactly one query,
parameterized by the cutoff and limit 100. -/
theorem extractor_contract_witness :
    ({ queries := [{ text := queryText "a", cutoffParam := cutoffOf 0, limitParam := 100 }],
        deletes := [], uploadAttempted := none } : Trace).queries
      = (splitTables cfgA.tableNames).map (fun t => queryFor t (cutoffOf 0)) :=
  (extractor_contract envAllOk dbOneOld cfgA 0
    { queries := [{ text := queryText "a", cutoffParam := cutoffOf 0, limitParam := 100 }],
      deletes := [], uploadAttempted := none }
    [{ id := 1, timestamp := -7776000000000001, deviceId := "dev1", value := 5, tableName := "a" }]
    rfl).1

theorem toParquet_toRecord (r : IoTRecord)
    (h1 : -9223372036854775808 ≤ r.timestamp) (h2 : r.timestamp ≤ 9223372036854775807) :
    (r.toParquet).toRecord = r := by
  have ht : unixNano r.timestamp = r.timestamp := by
    simp only [unixNano, wrapInt64]
    omega
  simp only [IoTRecord.toParquet, ParquetFile.toRecord, ht]

/-- C8.  Encoding a set of records into the columnar file and decoding
the produced file yields the same records: the write stores exactly the
`ToParquet` images of the records (identifier, device id, value bits and
source-table tag unchanged, the timestamp as its `UnixNano` integer), and
for records whose instants are representable in `int64` nanoseconds the
decoded rows equal the original records field for field. -/
theorem parquet_roundtrip (env : Env) (records : List IoTRecord) (filename : String)
    (fs : ArchiveFS) (h1 : env.createOk = true) (h2 : env.writeFailAt = none)
    (hrange : ∀ r ∈ records, -9223372036854775808 ≤ r.timestamp ∧
      r.timestamp ≤ 9223372036854775807) :
    writeParquetFile env records filename fs
      = (some (filename, records.map IoTRecord.toParquet), .ok ()) ∧
    (records.map IoTRecord.toParquet).map ParquetFile.toRecord = records := by
  constructor
  · simp [writeParquetFile, h1, h2]
  · induction records with
    | nil => rfl
    | cons r rs IH =>
      rw [List.map_cons, List.map_cons,
        toParquet_toRecord r (hrange r (List.mem_cons_self r rs)).1
          (hrange r (List.mem_cons_self r rs)).2,
        IH (fun x hx => hrange x (List.mem_cons_of_mem r hx))]

/-- Closed instance of C8 on a one-record batch. -/
theorem parquet_roundtrip_witness :
    (([{ id := 1, timestamp := -7776000000000001, deviceId := "dev1", value := 5, tableName := "a" }] : List IoTRecord).map IoTRecord.toParquet).map ParquetFile.toRecord
      = [{ id := 1, timestamp := -7776000000000001, deviceId := "dev1", value := 5, tableName := "a" }] :=
  (parquet_roundtrip envAllOk
    [{ id := 1, timestamp := -7776000000000001, deviceId := "dev1", value := 5, tableName := "a" }]
    "/tmp/archive.parquet" none rfl rfl (by decide)).2

theorem writeParquetFile_fs_cases (env : Env) (records : List IoTRecord)
    (fn : String) (fs : ArchiveFS) :
    (writeParquetFile env records fn fs).1 = fs ∨
      ∃ c, (writeParquetFile env records fn fs).1 = some (fn, c) := by
  simp only [writeParquetFile]
  split
  · exact Or.inl rfl
  · split
    · exact Or.inr ⟨_, rfl⟩
    · exact Or.inr ⟨_, rfl⟩

theorem writeParquetFile_ok_fst (env : Env) (records : List IoTRecord)
    (fn : String) (fs fs1 : ArchiveFS) (u : Unit)
    (h : writeParquetFile env records fn fs = (fs1, .ok u)) :
    fs1 = some (fn, records.map IoTRecord.toParquet) := by
  simp only [writeParquetFile] at h
  split at h
  · simp at h
  · split at h
    · simp at h
    · simp only [Prod.mk.injEq] at h
      exact h.1.symm

/-- C10.  Every run that creates an output file creates it at the fixed
local path `/tmp/archive.parquet` (independent of configuration, sources
and timestamps); a run never removes an existing archive file; and a
successful run that uploaded leaves the file present at that path. -/
theorem artifact_path_fixed (env : Env) (db : DB) (cfg : Config) (now : Int)
    (fs : ArchiveFS) :
    ((run env db cfg now fs).fs = fs ∨
      ∃ c, (run env db cfg now fs).fs = some ("/tmp/archive.parquet", c)) ∧
    ((run env db cfg now fs).result = .ok () ∧
        (run env db cfg now fs).trace.uploadAttempted.isSome = true →
      ∃ c, (run env db cfg now fs).fs = some ("/tmp/archive.parquet", c)) ∧
    (fs.isSome = true → (run env db cfg now fs).fs.isSome = true) := by
  cases h1 : env.connectOk with
  | false =>
    rw [run_noconnect env db cfg now fs h1]
    exact ⟨Or.inl rfl, fun h => absurd h.2 (by simp [Trace.start]), fun h => h⟩
  | true =>
  cases h2 : env.pingOk with
  | false =>
    rw [run_noping env db cfg now fs h1 h2]
    exact ⟨Or.inl rfl, fun h => absurd h.2 (by simp [Trace.start]), fun h => h⟩
  | true =>
  rcases hE : extractTables env db (cutoffOf now) (splitTables cfg.tableNames) Trace.start
    with ⟨tr, res⟩
  have htr : tr.uploadAttempted = none := by
    have h := extractTables_upload env db (cutoffOf now) (splitTables cfg.tableNames) Trace.start
    rw [hE] at h
    exact h
  cases res with
  | error e =>
    rw [run_extract_err env db cfg now fs tr e h1 h2 hE]
    exact ⟨Or.inl rfl, fun h => by simp at h, fun h => h⟩
  | ok recs =>
    cases recs with
    | nil =>
      rw [run_empty env db cfg now fs tr h1 h2 hE]
      exact ⟨Or.inl rfl, fun h => absurd h.2 (by simp [htr]), fun h => h⟩
    | cons first rest =>
      rw [run_nonempty env db cfg now fs tr first rest h1 h2 hE]
      rcases hW : writeParquetFile env (first :: rest) "/tmp/archive.parquet" fs
        with ⟨fs1, wres⟩
      have hfs1 : fs1 = fs ∨ ∃ c, fs1 = some ("/tmp/archive.parquet", c) := by
        have h := writeParquetFile_fs_cases env (first :: rest) "/tmp/archive.parquet" fs
        rw [hW] at h
        exact h
      have hfs1some : fs.isSome = true → fs1.isSome = true := by
        intro h
        rcases hfs1 with hcase | ⟨c, hcase⟩
        · rw [hcase]
          exact h
        · rw [hcase]
          rfl
      cases wres with
      | error e => exact ⟨hfs1, fun h => by simp at h, hfs1some⟩
      | ok u =>
        have hfull : fs1 = some ("/tmp/archive.parquet", (first :: rest).map IoTRecord.toParquet) :=
          writeParquetFile_ok_fst env (first :: rest) "/tmp/archive.parquet" fs fs1 u hW
        cases h3 : env.awsCfgOk with
        | false =>
          simp only [Bool.false_eq_true, reduceIte]
          exact ⟨Or.inr ⟨_, hfull⟩, fun h => by simp at h, fun _ => by rw [hfull]; rfl⟩
        | true =>
        cases h4 : env.openOk with
        | false =>
          simp only [Bool.false_eq_true, Bool.true_eq_false, reduceIte]
          exact ⟨Or.inr ⟨_, hfull⟩, fun h => by simp at h, fun _ => by rw [hfull]; rfl⟩
        | true =>
        cases h5 : env.uploadOk with
        | false =>
          simp only [Bool.false_eq_true, Bool.true_eq_false, reduceIte]
          exact ⟨Or.inr ⟨_, hfull⟩, fun h => by simp at h, fun _ => by rw [hfull]; rfl⟩
        | true =>
          simp only [Bool.true_eq_false, reduceIte]
          rcases hP : purgeTables env (cutoffOf now) (splitTables cfg.tableNames) db
            { tr with uploadAttempted := some (cfg.s3Bucket, s3KeyOf (maxTimestamp first.timestamp rest)) }
            with ⟨tr2, db2, pres⟩
          cases pres with
          | error e =>
            exact ⟨Or.inr ⟨_, hfull⟩, fun _ => ⟨_, hfull⟩, fun _ => by rw [hfull]; rfl⟩
          | ok u2 =>
            exact ⟨Or.inr ⟨_, hfull⟩, fun _ => ⟨_, hfull⟩, fun _ => by rw [hfull]; rfl⟩

/-- Closed instance of C10: after a successful run the archive file is
present at the fixed path. -/
theorem artifact_path_fixed_witness :
    ∃ c, (run envAllOk dbOneOld cfgA 0 none).fs = some ("/tmp/archive.parquet", c) :=
  (artifact_path_fixed envAllOk dbOneOld cfgA 0 none).2.1 ⟨rfl, rfl⟩

theorem countP_tag_block (db : DB) (c : Int) (s t : String) :
    ((selectQuery (db s) c batchSize).map (tagRow s)).countP (fun rec => rec.tableName = t)
      = if s = t then (selectQuery (db s) c batchSize).length else 0 := by
  rw [List.countP_map]
  by_cases hst : s = t
  · subst hst
    rw [if_pos rfl]
    simp [tagRow, Function.comp]
  · rw [if_neg hst]
    simp [tagRow, Function.comp, hst]

theorem countP_extractedSpec (db : DB) (c : Int) (t : String) :
    ∀ ts : List String, (extractedSpec db c ts).countP (fun rec => rec.tableName = t)
      = ts.count t * (selectQuery (db t) c batchSize).length
  | [] => by simp [extractedSpec]
  | s :: ts => by
    simp only [extractedSpec, List.countP_append, countP_tag_block,
      countP_extractedSpec db c t ts, List.count_cons]
    by_cases hst : s = t
    · subst hst
      simp only [if_pos rfl, beq_self_eq_true, if_true]
      ring
    · have hst3 : ¬ (s == t) = true := by
        simp only [beq_iff_eq]
        exact hst
      simp [if_neg hst, hst3]

theorem countP_toParquet (l : List IoTRecord) (t : String) :
    (l.map IoTRecord.toParquet).countP (fun p => p.tableName = t)
      = l.countP (fun rec => rec.tableName = t) := by
  rw [List.countP_map]
  rfl

/-- C7.  In a successful run against a source holding more than
`batchSize` (100) rows older than the cutoff, the Purger deletes rows
that were never archived: the artifact carries at most 100 records tagged
with that source, while the delete removes every older-than-cutoff row,
so strictly more rows are removed from the source than were written to
the artifact for it. -/
theorem purge_exceeds_archived (env : Env) (db : DB) (cfg : Config) (now : Int)
    (fs : ArchiveFS) (t : String)
    (hok : (run env db cfg now fs).result = .ok ())
    (hmem : t ∈ splitTables cfg.tableNames)
    (hcount : (splitTables cfg.tableNames).count t = 1)
    (hmany : batchSize < ((db t).filter (fun r => r.timestamp < cutoffOf now)).length) :
    ∃ contents, (run env db cfg now fs).fs = some ("/tmp/archive.parquet", contents) ∧
      contents.countP (fun p => p.tableName = t) ≤ batchSize ∧
      ((run env db cfg now fs).db t).length
        + ((db t).filter (fun r => r.timestamp < cutoffOf now)).length = (db t).length ∧
      contents.countP (fun p => p.tableName = t)
        < (db t).length - ((run env db cfg now fs).db t).length := by
  cases h1 : env.connectOk with
  | false => rw [run_noconnect env db cfg now fs h1] at hok; simp at hok
  | true =>
  cases h2 : env.pingOk with
  | false => rw [run_noping env db cfg now fs h1 h2] at hok; simp at hok
  | true =>
  rcases hE : extractTables env db (cutoffOf now) (splitTables cfg.tableNames) Trace.start
    with ⟨tr, res⟩
  cases res with
  | error e => rw [run_extract_err env db cfg now fs tr e h1 h2 hE] at hok; simp at hok
  | ok recs =>
    cases recs with
    | nil =>
      obtain ⟨hspec, -⟩ := extract_ok_spec env db (cutoffOf now)
        (splitTables cfg.tableNames) Trace.start tr [] hE
      have hsel := extractedSpec_eq_nil db (cutoffOf now) (splitTables cfg.tableNames)
        hspec.symm t hmem
      have hfil := (selectQuery_eq_nil_iff (db t) (cutoffOf now)).mp hsel
      rw [hfil] at hmany
      simp [batchSize] at hmany
    | cons first rest =>
      obtain ⟨hspec, -⟩ := extract_ok_spec env db (cutoffOf now)
        (splitTables cfg.tableNames) Trace.start tr (first :: rest) hE
      rw [run_nonempty env db cfg now fs tr first rest h1 h2 hE] at hok ⊢
      rcases hW : writeParquetFile env (first :: rest) "/tmp/archive.parquet" fs
        with ⟨fs1, wres⟩
      rw [hW] at hok
      cases wres with
      | error e => simp at hok
      | ok u =>
        have hfull : fs1 = some ("/tmp/archive.parquet", (first :: rest).map IoTRecord.toParquet) :=
          writeParquetFile_ok_fst env (first :: rest) "/tmp/archive.parquet" fs fs1 u hW
        cases h3 : env.awsCfgOk with
        | false => simp [h3] at hok
        | true =>
        cases h4 : env.openOk with
        | false => simp [h3, h4] at hok
        | true =>
        cases h5 : env.uploadOk with
        | false => simp [h3, h4, h5] at hok
        | true =>
          simp only [h3, h4, h5, Bool.true_eq_false, reduceIte] at hok ⊢
          set trU : Trace := { tr with uploadAttempted := some (cfg.s3Bucket, s3KeyOf (maxTimestamp first.timestamp rest)) } with htrU
          rcases hP : purgeTables env (cutoffOf now) (splitTables cfg.tableNames) db trU
            with ⟨tr2, db2, pres⟩
          rw [hP] at hok
          cases pres with
          | error e => simp at hok
          | ok u2 =>
            have hdb2 : db2 t = (db t).filter (fun r => cutoffOf now ≤ r.timestamp) :=
              (purgeTables_ok_db env (cutoffOf now) (splitTables cfg.tableNames) db
                trU tr2 db2 u2 hP t).1 hmem
            have hcountP : ((first :: rest).map IoTRecord.toParquet).countP
                (fun p => p.tableName = t)
                = (selectQuery (db t) (cutoffOf now) batchSize).length := by
              rw [countP_toParquet, hspec,
                countP_extractedSpec db (cutoffOf now) t (splitTables cfg.tableNames),
                hcount, Nat.one_mul]
            have hle : (selectQuery (db t) (cutoffOf now) batchSize).length ≤ batchSize :=
              selectQuery_length_le (db t) (cutoffOf now) batchSize
            have hpart := filter_length_partition (cutoffOf now) (db t)
            refine ⟨(first :: rest).map IoTRecord.toParquet, hfull, ?_, ?_, ?_⟩
            · rw [hcountP]
              exact hle
            · show (db2 t).length + _ = _
              rw [hdb2]
              exact hpart
            · show _ < (db t).length - (db2 t).length
              rw [hcountP, hdb2]
              omega

/-- Closed instance of C7: a source with 101 rows older than the cutoff
loses all 101 while the artifact holds only 100 of them. -/
theorem purge_exceeds_archived_witness :
    ∃ contents, (run envAllOk dbMany cfgA 0 none).fs = some ("/tmp/archive.parquet", contents) ∧
      contents.countP (fun p => p.tableName = "a") ≤ batchSize ∧
      ((run envAllOk dbMany cfgA 0 none).db "a").length
        + ((dbMany "a").filter (fun r => r.timestamp < cutoffOf 0)).length
        = (dbMany "a").length ∧
      contents.countP (fun p => p.tableName = "a")
        < (dbMany "a").length - ((run envAllOk dbMany cfgA 0 none).db "a").length :=
  purge_exceeds_archived envAllOk dbMany cfgA 0 none "a" rfl (by decide) (by decide)
    (by decide)

/-- C9 counterexample.  The claim says an empty source name is rejected
before being interpolated into the query text; in fact, with
`TABLE_NAMES=","` the run builds and executes a query whose text
interpolates the empty name (a FROM clause with no table), so no
validation happens. -/
theorem empty_name_query_issued_cex :
    { text := queryText "", cutoffParam := cutoffOf 0, limitParam := batchSize }
      ∈ (run envAllOk dbEmpty cfgComma 0 none).trace.queries ∧
    queryText ""
      = "SELECT id, timestamp, device_id, value FROM  WHERE timestamp < $1 ORDER BY timestamp DESC LIMIT $2" :=
  ⟨by decide, rfl⟩

/-- C9, amended.  Source names are not validated at all: whatever string
appears first in the configured comma-separated list — the empty string
included — has its extraction query built (by direct interpolation into
the query text) and executed against the database. -/
theorem source_names_not_validated (env : Env) (db : DB) (cfg : Config) (now : Int)
    (fs : ArchiveFS) (t : String) (rest : List String)
    (h1 : env.connectOk = true) (h2 : env.pingOk = true)
    (hsplit : splitTables cfg.tableNames = t :: rest) :
    { text := queryText t, cutoffParam := cutoffOf now, limitParam := batchSize }
      ∈ (run env db cfg now fs).trace.queries := by
  rcases hE : extractTables env db (cutoffOf now) (splitTables cfg.tableNames) Trace.start
    with ⟨tr, res⟩
  have hq : ({ text := queryText t, cutoffParam := cutoffOf now, limitParam := batchSize }
      : SqlQuery) ∈ tr.queries := by
    rw [hsplit] at hE
    rcases hP : processTable env db t (cutoffOf now) batchSize Trace.start with ⟨tr1, res1⟩
    have h1q : tr1.queries
        = [{ text := queryText t, cutoffParam := cutoffOf now, limitParam := batchSize }] := by
      have h := processTable_fst env db t (cutoffOf now) batchSize Trace.start
      rw [hP] at h
      have h2 : tr1 = { Trace.start with queries := Trace.start.queries
        ++ [{ text := queryText t, cutoffParam := cutoffOf now, limitParam := batchSize }] } := h
      rw [h2]
      rfl
    cases res1 with
    | error e =>
      rw [extractTables_cons_err env db (cutoffOf now) t rest Trace.start tr1 e hP] at hE
      simp only [Prod.mk.injEq] at hE
      rw [← hE.1, h1q]
      exact List.mem_singleton.mpr rfl
    | ok recs =>
      rw [extractTables_cons_ok env db (cutoffOf now) t rest Trace.start tr1 recs hP] at hE
      rcases hR : extractTables env db (cutoffOf now) rest tr1 with ⟨tr2, res2⟩
      rw [hR] at hE
      obtain ⟨s, hs⟩ := extractTables_queries_extend env db (cutoffOf now) rest tr1
      rw [hR] at hs
      have htr2 : tr = tr2 := by
        cases res2 <;> simp only [Prod.mk.injEq] at hE <;> exact hE.1.symm
      rw [htr2, hs, h1q]
      exact List.mem_append.mpr (Or.inl (List.mem_singleton.mpr rfl))
  cases res with
  | error e =>
    rw [run_extract_err env db cfg now fs tr e h1 h2 hE]
    exact hq
  | ok recs =>
    cases recs with
    | nil =>
      rw [run_empty env db cfg now fs tr h1 h2 hE]
      exact hq
    | cons f r =>
      rw [run_nonempty env db cfg now fs tr f r h1 h2 hE]
      rcases hW : writeParquetFile env (f :: r) "/tmp/archive.parquet" fs with ⟨fs1, wres⟩
      cases wres with
      | error e => exact hq
      | ok u =>
        cases h3 : env.awsCfgOk with
        | false =>
          simp only [Bool.false_eq_true, reduceIte]
          exact hq
        | true =>
        cases h4 : env.openOk with
        | false =>
          simp only [Bool.false_eq_true, Bool.true_eq_false, reduceIte]
          exact hq
        | true =>
        cases h5 : env.uploadOk with
        | false =>
          simp only [Bool.false_eq_true, Bool.true_eq_false, reduceIte]
          exact hq
        | true =>
          simp only [Bool.true_eq_false, reduceIte]
          set trU : Trace := { tr with uploadAttempted := some (cfg.s3Bucket, s3KeyOf (maxTimestamp f.timestamp r)) } with htrU
          rcases hP2 : purgeTables env (cutoffOf now) (splitTables cfg.tableNames) db trU
            with ⟨tr2, db2, pres⟩
          have hpq : tr2.queries = tr.queries := by
            have h := purgeTables_queries env (cutoffOf now) (splitTables cfg.tableNames) db trU
            rw [hP2] at h
            rw [h, htrU]
          cases pres with
          | error e =>
            show _ ∈ tr2.queries
            rw [hpq]
            exact hq
          | ok u2 =>
            show _ ∈ tr2.queries
            rw [hpq]
            exact hq

/-- Closed instance of the amended C9: the empty first entry of
`TABLE_NAMES=","` gets its query issued. -/
theorem source_names_not_validated_witness :
    { text := queryText "", cutoffParam := cutoffOf 0, limitParam := batchSize }
      ∈ (run envAllOk dbEmpty cfgComma 0 none).trace.queries :=
  source_names_not_validated envAllOk dbEmpty cfgComma 0 none "" [""] rfl rfl (by decide)

end PgArchiver
